import Mathlib

/-!
Shallow embedding of the end-to-end host-function invocation core of the
soroban-env-host / soroban-simulation repository.

The definitions below are translated from:
* `soroban-env-host/src/e2e_invoke.rs` (entry-size-for-rent helper, footprint
  and storage-map construction, change-set builder, enforcing invocation
  pipeline, contract-event encoding);
* `soroban-simulation/src/resources.rs` (restore-op simulation);
* the rent-write-fee curve of the fee engine, which is exercised by
  `soroban-env-host/tests/fees.rs` but implemented outside the provided
  sources; that single definition is modelled from the specification and
  pinned against every test vector of `tests/fees.rs`.

Conventions of the embedding:
* machine integers are `Nat`/`Int` with explicit `2^32`/`2^63` bounds where
  the source saturates or checks overflow;
* the XDR serialization oracle is external to the repository, so encoded
  forms are identified with their values: a `LedgerEntry` carries the length
  of its canonical encoding in the `xdrSize` field, an encoded key is the key
  itself, and the content hash of an encoded key is an injective `Nat` code;
* budget metering is external (the `Budget` type is not part of the provided
  sources); metered charges that can only fail with a budget error are not
  modelled, and the abstract host-run function used by the invocation
  pipeline may fail with any error so that budget failures are covered;
* `MeteredOrdMap` is modelled as an association list with replace-on-insert;
  iteration order is the insertion order (the claims proved here do not
  depend on the map's comparison order).
-/

namespace SorobanE2E

/-! ## Basic data model: durabilities, keys, entries -/

/-- `ContractDataDurability` from the XDR data model. -/
inductive ContractDataDurability
  | temporary
  | persistent
deriving DecidableEq, Repr

/-- Ledger keys, discriminated by entry kind. Only `contractData` and
`contractCode` carry a durability. `other` stands for the remaining XDR key
kinds that `ledger_entry_to_ledger_key` refuses to produce. -/
inductive LedgerKey
  | account (accountId : Nat)
  | trustline (accountId : Nat) (asset : Nat)
  | contractData (contract : Nat) (keyVal : Nat) (durability : ContractDataDurability)
  | contractCode (hash : Nat)
  | other (id : Nat)
deriving DecidableEq, Repr

/-- `LedgerEntryData`: the data payload of a ledger entry. The `payload`
fields stand for the opaque content; `moduleMemoryCost` on contract code is
the value of `wasm_module_memory_cost` for that entry (a derived in-memory
module cost; the function itself lives outside the provided sources). -/
inductive LedgerEntryData
  | account (accountId : Nat) (payload : Nat)
  | trustline (accountId : Nat) (asset : Nat) (payload : Nat)
  | contractData (contract : Nat) (keyVal : Nat) (durability : ContractDataDurability)
      (payload : Nat)
  | contractCode (hash : Nat) (moduleMemoryCost : Nat) (payload : Nat)
  | other (id : Nat) (payload : Nat)
deriving DecidableEq, Repr

/-- A ledger entry: its data plus the length of its canonical XDR encoding
(the serialization oracle is external, so the length is carried as a field). -/
structure LedgerEntry where
  data : LedgerEntryData
  xdrSize : Nat
deriving DecidableEq, Repr

/-- `TtlEntry` from the XDR data model: content hash of the key plus the
live-until ledger sequence. -/
structure TtlEntry where
  key_hash : Nat
  live_until_ledger_seq : Nat
deriving DecidableEq, Repr

/-- Error types (`ScErrorType`), restricted to the ones the embedded
functions mention. -/
inductive ScErrorType
  | contract
  | wasmVm
  | context
  | storage
  | auth
  | value
  | budget
deriving DecidableEq, Repr

/-- Error codes (`ScErrorCode`), restricted to the ones the embedded
functions mention. -/
inductive ScErrorCode
  | internalError
  | invalidAction
  | invalidInput
  | missingValue
  | exceededLimit
deriving DecidableEq, Repr

/-- `HostError`, reduced to its `(type, code)` pair. -/
structure HostError where
  type_ : ScErrorType
  code : ScErrorCode
deriving DecidableEq, Repr

/-- Footprint access modes. -/
inductive AccessType
  | readOnly
  | readWrite
deriving DecidableEq, Repr

/-- u32 bound. -/
def U32LIM : Nat := 2 ^ 32

/-- Saturation of a `Nat` at `u32::MAX`. -/
def u32sat (n : Nat) : Nat := min n (U32LIM - 1)

/-- `get_key_durability` (from `ledger_info.rs`, modelled from the spec:
only ContractData and ContractCode carry a durability, contract code is
always persistent). -/
def get_key_durability : LedgerKey → Option ContractDataDurability
  | .contractData _ _ d => some d
  | .contractCode _ => some .persistent
  | _ => none

/-- `is_persistent_key` (from `storage.rs`, modelled from the spec:
temporary ContractData is the only non-persistent key kind). -/
def is_persistent_key : LedgerKey → Bool
  | .contractData _ _ .temporary => false
  | _ => true

/-- Constructor tag of a key; stands for `LedgerKey::discriminant()`
(`LedgerEntryType`). -/
def LedgerKey.tag : LedgerKey → Nat
  | .account _ => 0
  | .trustline _ _ => 1
  | .contractData _ _ _ => 2
  | .contractCode _ => 3
  | .other _ => 4

/-- Injective numeric code of a key; stands for the canonical XDR encoding
of the key (and, through `sha256_key_hash`, for its content hash). -/
def LedgerKey.encode : LedgerKey → Nat
  | .account i => Nat.pair 0 i
  | .trustline i a => Nat.pair 1 (Nat.pair i a)
  | .contractData c k d =>
      Nat.pair 2 (Nat.pair c (Nat.pair k (match d with | .temporary => 0 | .persistent => 1)))
  | .contractCode h => Nat.pair 3 h
  | .other i => Nat.pair 4 i

/-- Content hash of the canonical encoding of a key (`sha256_hash_from_bytes`
of the encoded key; the hash is external, modelled as an injective code). -/
def sha256_key_hash (k : LedgerKey) : Nat := Nat.pair 5 k.encode

/-- The canonical key order used by `sort` on ledger keys. -/
def keyLE (a b : LedgerKey) : Prop := a.encode ≤ b.encode

instance : DecidableRel keyLE := fun a b => Nat.decLe a.encode b.encode

instance : IsTotal LedgerKey keyLE := ⟨fun a b => Nat.le_total a.encode b.encode⟩

instance : IsTrans LedgerKey keyLE := ⟨fun _ _ _ hab hbc => Nat.le_trans hab hbc⟩

/-- `ledger_entry_to_ledger_key` from `e2e_invoke.rs`: derive the key of an
entry; kinds outside the four supported ones are a `Storage/InternalError`. -/
def ledger_entry_to_ledger_key (le : LedgerEntry) : Except HostError LedgerKey :=
  match le.data with
  | .account i _ => .ok (.account i)
  | .trustline i a _ => .ok (.trustline i a)
  | .contractData c k d _ => .ok (.contractData c k d)
  | .contractCode h _ _ => .ok (.contractCode h)
  | .other _ _ => .error ⟨.storage, .internalError⟩

/-- `entry_size_for_rent` from `e2e_invoke.rs`: the provided XDR size, except
for contract code where the module memory cost (clamped to `u32::MAX`) is
added saturatingly. -/
def entry_size_for_rent (entry : LedgerEntry) (entry_xdr_size : Nat) : Nat :=
  match entry.data with
  | .contractCode _ moduleMemoryCost _ =>
      u32sat (entry_xdr_size + min moduleMemoryCost (U32LIM - 1))
  | _ => entry_xdr_size

/-! ## Association lists standing for `MeteredOrdMap` -/

/-- Lookup in an association list. -/
def alookup {κ α : Type} [DecidableEq κ] : List (κ × α) → κ → Option α
  | [], _ => none
  | (k, v) :: rest, key => if k = key then some v else alookup rest key

/-- Insert-or-replace in an association list (`MeteredOrdMap::insert`
replaces the binding of an existing key). -/
def ainsert {κ α : Type} [DecidableEq κ] : List (κ × α) → κ → α → List (κ × α)
  | [], k, v => [(k, v)]
  | (k0, v0) :: rest, k, v =>
      if k0 = k then (k, v) :: rest else (k0, v0) :: ainsert rest k v

/-- The key list of an association list. -/
def akeys {κ α : Type} (l : List (κ × α)) : List κ := l.map (·.1)

/-! ## Footprint and storage -/

/-- `LedgerFootprint` from the XDR data model: the two declared key lists. -/
structure LedgerFootprint where
  read_only : List LedgerKey
  read_write : List LedgerKey
deriving DecidableEq, Repr

/-- `SorobanResources` from the XDR data model. -/
structure SorobanResources where
  footprint : LedgerFootprint
  instructions : Nat
  disk_read_bytes : Nat
  write_bytes : Nat
deriving DecidableEq, Repr

/-- `Footprint`: map from key to access mode. -/
structure Footprint where
  m : List (LedgerKey × AccessType)
deriving DecidableEq, Repr

/-- `StorageMap`: map from key to optional `(entry, live_until_ledger?)`. -/
abbrev StorageMap := List (LedgerKey × Option (LedgerEntry × Option Nat))

/-- `TtlEntryMap`: map from key to its initial `TtlEntry`. -/
abbrev TtlEntryMap := List (LedgerKey × TtlEntry)

/-- `Storage`: footprint plus the working storage map. -/
structure Storage where
  footprint : Footprint
  map : StorageMap
deriving DecidableEq, Repr

/-- A snapshot source: pure lookup of `(entry, live_until?)` by key. -/
abbrev SnapshotSource := LedgerKey → Option (LedgerEntry × Option Nat)

/-- `check_supported_ledger_key_type` (from `storage.rs`, modelled from the
spec: all five modelled entry kinds are among the permitted ones). -/
def check_supported_ledger_key_type (_k : LedgerKey) : Except HostError Unit := .ok ()

/-- `build_storage_footprint_from_xdr` from `e2e_invoke.rs`: insert the
read-write keys, then the read-only keys, into the footprint map. -/
def build_storage_footprint_from_xdr (footprint : LedgerFootprint) :
    Except HostError Footprint :=
  match (footprint.read_write.foldlM
      (fun acc k =>
        match check_supported_ledger_key_type k with
        | .error e => .error e
        | .ok _ => .ok (ainsert acc k AccessType.readWrite))
      ([] : List (LedgerKey × AccessType)) :
      Except HostError (List (LedgerKey × AccessType))) with
  | .error e => .error e
  | .ok m1 =>
    match (footprint.read_only.foldlM
        (fun acc k =>
          match check_supported_ledger_key_type k with
          | .error e => .error e
          | .ok _ => .ok (ainsert acc k AccessType.readOnly))
        m1 : Except HostError (List (LedgerKey × AccessType))) with
    | .error e => .error e
    | .ok m2 => .ok ⟨m2⟩

/-- `build_restored_key_set` from `e2e_invoke.rs`: collect the read-write
footprint keys named by the restored indices; an out-of-range index is a
`Storage/InternalError`. Returns `none` when there are no indices. -/
def build_restored_key_set (resources : SorobanResources)
    (restored_rw_entry_indices : List Nat) :
    Except HostError (Option (List LedgerKey)) :=
  if restored_rw_entry_indices.isEmpty then .ok none
  else
    match (restored_rw_entry_indices.foldlM
        (fun acc i =>
          match resources.footprint.read_write.get? i with
          | some k => Except.ok (if k ∈ acc then acc else acc ++ [k])
          | none => Except.error (⟨.storage, .internalError⟩ : HostError))
        ([] : List LedgerKey) : Except HostError (List LedgerKey)) with
    | .error e => .error e
    | .ok ks => .ok (some ks)

/-- The per-pair loop of `build_storage_map_from_xdr_ledger_entries`:
derive the key of each entry, process its TTL record (with the freshness
rule: expired entries are an internal error in enforcing mode; in recording
mode expired temporary entries are skipped and expired persistent entries
are kept), check footprint membership, and insert into the two maps. -/
def build_storage_map_loop (footprint : Footprint) (ledger_num : Nat)
    (is_recording_mode : Bool) :
    List (LedgerEntry × Option TtlEntry) → StorageMap → TtlEntryMap →
    Except HostError (StorageMap × TtlEntryMap)
  | [], sm, tm => .ok (sm, tm)
  | (le, ttlOpt) :: rest, sm, tm =>
    match ledger_entry_to_ledger_key le with
    | .error e => .error e
    | .ok key =>
      match ttlOpt with
      | some ttl_entry =>
        if ttl_entry.live_until_ledger_seq < ledger_num ∧ is_recording_mode = false then
          .error ⟨.storage, .internalError⟩
        else if ttl_entry.live_until_ledger_seq < ledger_num ∧ is_persistent_key key = false then
          -- skip expired temp entries, as these can't actually appear in storage
          build_storage_map_loop footprint ledger_num is_recording_mode rest sm tm
        else
          if (alookup footprint.m key).isSome then
            build_storage_map_loop footprint ledger_num is_recording_mode rest
              (ainsert sm key (some (le, some ttl_entry.live_until_ledger_seq)))
              (ainsert tm key ttl_entry)
          else .error ⟨.storage, .internalError⟩
      | none =>
        match le.data with
        | .contractData _ _ _ _ => .error ⟨.storage, .internalError⟩
        | .contractCode _ _ _ => .error ⟨.storage, .internalError⟩
        | _ =>
          if (alookup footprint.m key).isSome then
            build_storage_map_loop footprint ledger_num is_recording_mode rest
              (ainsert sm key (some (le, none))) tm
          else .error ⟨.storage, .internalError⟩

/-- The trailing loop of `build_storage_map_from_xdr_ledger_entries`: any
footprint key still missing from the storage map is inserted as `none`. -/
def fill_footprint_keys (fpm : List (LedgerKey × AccessType)) (sm : StorageMap) :
    StorageMap :=
  fpm.foldl (fun acc p => if (alookup acc p.1).isSome then acc else ainsert acc p.1 none) sm

/-- `build_storage_map_from_xdr_ledger_entries` from `e2e_invoke.rs`. The
two iterators of encoded entries/TTLs are taken already decoded (decoding is
the external serialization oracle); an empty TTL slot is `none`. -/
def build_storage_map_from_xdr_ledger_entries (footprint : Footprint)
    (ledger_entries : List LedgerEntry) (ttl_entries : List (Option TtlEntry))
    (ledger_num : Nat) (is_recording_mode : Bool) :
    Except HostError (StorageMap × TtlEntryMap) :=
  if ledger_entries.length ≠ ttl_entries.length then
    .error ⟨.storage, .internalError⟩
  else
    match build_storage_map_loop footprint ledger_num is_recording_mode
        (ledger_entries.zip ttl_entries) [] [] with
    | .error e => .error e
    | .ok (sm, tm) => .ok (fill_footprint_keys footprint.m sm, tm)

/-! ## Change-set builder -/

/-- `LedgerEntryLiveUntilChange` from `e2e_invoke.rs`. -/
structure LedgerEntryLiveUntilChange where
  key_hash : Nat
  durability : ContractDataDurability
  entry_type : Nat
  old_live_until_ledger : Nat
  new_live_until_ledger : Nat
deriving DecidableEq, Repr

/-- `LedgerEntryChange` from `e2e_invoke.rs`. The encoded key and the encoded
new value are identified with their decoded values (canonical encoding). -/
structure LedgerEntryChange where
  read_only : Bool
  encoded_key : LedgerKey
  old_entry_size_bytes_for_rent : Nat
  encoded_new_value : Option LedgerEntry
  new_entry_size_bytes_for_rent : Nat
  ttl_change : Option LedgerEntryLiveUntilChange
deriving DecidableEq, Repr

/-- The initial `ttl_change` record of `get_ledger_changes` for a key:
present exactly for durable keys, with the key hash taken from the initial
TTL map when present and from the content hash of the encoded key otherwise,
and both live-until ledgers zero. -/
def ttl_change_initial (init_ttl_entries : TtlEntryMap) (key : LedgerKey) :
    Option LedgerEntryLiveUntilChange :=
  (get_key_durability key).map fun d =>
    { key_hash :=
        match alookup init_ttl_entries key with
        | some ttl_entry => ttl_entry.key_hash
        | none => sha256_key_hash key
      durability := d
      entry_type := key.tag
      old_live_until_ledger := 0
      new_live_until_ledger := 0 }

/-- The old-entry paragraph of the `get_ledger_changes` loop: look the key up
in the initial snapshot, compute the old rent size and the old live-until
ledger (an absent live-until for a durable entry is an internal error). The
`old < current_ledger_seq` reset is the block compiled under the
recording-mode configuration (the configuration in which both pipelines of
this repository are compiled). -/
def old_entry_part (init_storage_snapshot : SnapshotSource)
    (current_ledger_seq : Nat) (key : LedgerKey)
    (ttl0 : Option LedgerEntryLiveUntilChange) :
    Except HostError (Nat × Option LedgerEntryLiveUntilChange) :=
  match init_storage_snapshot key with
  | some (old_entry, old_live_until_ledger) =>
    let size := entry_size_for_rent old_entry old_entry.xdrSize
    match ttl0 with
    | some tc =>
      match old_live_until_ledger with
      | none => Except.error (⟨.storage, .internalError⟩ : HostError)
      | some old =>
        if old < current_ledger_seq then
          Except.ok ((0 : Nat), some { tc with old_live_until_ledger := 0 })
        else
          Except.ok (size, some { tc with old_live_until_ledger := old })
    | none => Except.ok (size, none)
  | none => Except.ok ((0 : Nat), ttl0)

/-- The new-TTL paragraph of the `get_ledger_changes` loop: when the final
entry is present and the change tracks a TTL, the new live-until ledger is
the maximum of the final live-until ledger and the old one (never reduce the
final live-until ledger); an absent final live-until for a durable entry is
an internal error. -/
def new_ttl_part (entry_with_live_until_ledger : Option (LedgerEntry × Option Nat))
    (ttl1 : Option LedgerEntryLiveUntilChange) :
    Except HostError (Option LedgerEntryLiveUntilChange) :=
  match entry_with_live_until_ledger, ttl1 with
  | some (_, new_live_until_ledger), some tc =>
    match new_live_until_ledger with
    | none => Except.error (⟨.storage, .internalError⟩ : HostError)
    | some nl =>
      Except.ok (some { tc with
        new_live_until_ledger := max nl tc.old_live_until_ledger })
  | _, _ => Except.ok ttl1

/-- The access paragraph of the `get_ledger_changes` loop: mark read-only
entries, encode the new value of present read-write entries (resetting the
old size and live-until and raising the new live-until for restored keys),
and fail with an internal error for keys missing from the footprint. -/
def access_part (footprint : Footprint) (min_live_until_ledger : Nat)
    (restored_keys : Option (List LedgerKey)) (key : LedgerKey)
    (entry_with_live_until_ledger : Option (LedgerEntry × Option Nat))
    (old_size : Nat) (ttl2 : Option LedgerEntryLiveUntilChange) :
    Except HostError LedgerEntryChange :=
  match alookup footprint.m key with
  | some .readOnly =>
    .ok { read_only := true
          encoded_key := key
          old_entry_size_bytes_for_rent := old_size
          encoded_new_value := none
          new_entry_size_bytes_for_rent := 0
          ttl_change := ttl2 }
  | some .readWrite =>
    match entry_with_live_until_ledger with
    | some (entry, _) =>
      let new_size := entry_size_for_rent entry entry.xdrSize
      let restored_here : Bool :=
        match restored_keys with
        | some rk => decide (key ∈ rk)
        | none => false
      if restored_here then
        .ok { read_only := false
              encoded_key := key
              old_entry_size_bytes_for_rent := 0
              encoded_new_value := some entry
              new_entry_size_bytes_for_rent := new_size
              ttl_change := ttl2.map fun tc =>
                { tc with
                  old_live_until_ledger := 0
                  new_live_until_ledger :=
                    max tc.new_live_until_ledger min_live_until_ledger } }
      else
        .ok { read_only := false
              encoded_key := key
              old_entry_size_bytes_for_rent := old_size
              encoded_new_value := some entry
              new_entry_size_bytes_for_rent := new_size
              ttl_change := ttl2 }
    | none =>
      .ok { read_only := false
            encoded_key := key
            old_entry_size_bytes_for_rent := old_size
            encoded_new_value := none
            new_entry_size_bytes_for_rent := 0
            ttl_change := ttl2 }
  | none => .error ⟨.storage, .internalError⟩

/-- The body of the `get_ledger_changes` loop for one storage-map binding
`(key, entry_with_live_until_ledger)`: the three paragraphs above in source
order. -/
def process_ledger_entry_change (footprint : Footprint)
    (init_storage_snapshot : SnapshotSource) (init_ttl_entries : TtlEntryMap)
    (min_live_until_ledger : Nat) (restored_keys : Option (List LedgerKey))
    (current_ledger_seq : Nat) (key : LedgerKey)
    (entry_with_live_until_ledger : Option (LedgerEntry × Option Nat)) :
    Except HostError LedgerEntryChange :=
  match old_entry_part init_storage_snapshot current_ledger_seq key
      (ttl_change_initial init_ttl_entries key) with
  | .error e => .error e
  | .ok (old_size, ttl1) =>
    match new_ttl_part entry_with_live_until_ledger ttl1 with
    | .error e => .error e
    | .ok ttl2 =>
      access_part footprint min_live_until_ledger restored_keys key
        entry_with_live_until_ledger old_size ttl2

/-- Collect a list of fallible results, mirroring
`collect::<Result<Vec<_>, HostError>>`. -/
def collect_results {α β : Type} (f : α → Except HostError β) :
    List α → Except HostError (List β)
  | [] => .ok []
  | a :: rest =>
    match f a with
    | .error e => .error e
    | .ok b =>
      match collect_results f rest with
      | .error e => .error e
      | .ok bs => .ok (b :: bs)

/-- `get_ledger_changes` from `e2e_invoke.rs`: one change record per binding
of the storage map, in iteration order. -/
def get_ledger_changes (storage : Storage) (init_storage_snapshot : SnapshotSource)
    (init_ttl_entries : TtlEntryMap) (min_live_until_ledger : Nat)
    (restored_keys : Option (List LedgerKey)) (current_ledger_seq : Nat) :
    Except HostError (List LedgerEntryChange) :=
  collect_results
    (fun p =>
      process_ledger_entry_change storage.footprint init_storage_snapshot
        init_ttl_entries min_live_until_ledger restored_keys current_ledger_seq
        p.1 p.2)
    storage.map

/-! ## Events -/

/-- `ContractEventType` from the XDR data model. -/
inductive ContractEventType
  | contract
  | system
  | diagnostic
deriving DecidableEq, Repr

/-- A contract event; the body is opaque. -/
structure ContractEvent where
  type_ : ContractEventType
  body : Nat
deriving DecidableEq, Repr

/-- A host event: the event plus the failed-call flag (set for events emitted
in a contract call that failed and was rolled back). -/
structure HostEvent where
  failed_call : Bool
  event : ContractEvent
deriving DecidableEq, Repr

/-- The event log accumulated by the host. -/
abbrev Events := List HostEvent

/-- `encode_contract_events` from `e2e_invoke.rs`: encode every event that is
not diagnostic and was not emitted by a failed call; `encodeEvent` stands for
the metered XDR encoding of one `ContractEvent` (the serialization oracle). -/
def encode_contract_events (encodeEvent : ContractEvent → List Nat) :
    Events → List (List Nat)
  | [] => []
  | e :: rest =>
    if e.failed_call = false ∧ e.event.type_ ≠ ContractEventType.diagnostic then
      encodeEvent e.event :: encode_contract_events encodeEvent rest
    else
      encode_contract_events encodeEvent rest

/-! ## Enforcing invocation pipeline -/

/-- Ledger info, reduced to the fields the embedded functions read. -/
structure LedgerInfo where
  sequence_number : Nat
  min_temp_entry_ttl : Nat
  min_persistent_entry_ttl : Nat
deriving DecidableEq, Repr

/-- `LedgerInfo::min_live_until_ledger_checked` (from `ledger_info.rs`,
modelled from the spec: the minimum live-until ledger is
`current + min_entry_ttl − 1`, checked to be representable in `u32`). -/
def LedgerInfo.min_live_until_ledger_checked (info : LedgerInfo)
    (durability : ContractDataDurability) : Option Nat :=
  let ttl :=
    match durability with
    | .temporary => info.min_temp_entry_ttl
    | .persistent => info.min_persistent_entry_ttl
  let v := info.sequence_number + ttl - 1
  if v < U32LIM then some v else none

/-- `InvokeHostFunctionResult` from `e2e_invoke.rs`; the encoded invoke
result value is modelled as the returned `ScVal` code. -/
structure InvokeHostFunctionResult where
  encoded_invoke_result : Except HostError Nat
  ledger_changes : List LedgerEntryChange
  encoded_contract_events : List (List Nat)

/-- Abstraction of the host session between its creation and `try_finish`:
given the initial storage it performs the setter calls, the VM invocation and
the finalization, returning the invoke result (in which VM, storage-limit and
authorization errors are carried), the final storage and the event log. The
host session is not part of the provided sources. -/
abbrev HostRun := Storage → Except HostError (Except HostError Nat × Storage × Events)

/-- `invoke_host_function` from `e2e_invoke.rs`, starting from decoded
inputs (XDR decoding of the host function, resources, source account and
auth entries is the external serialization oracle). The steps are in source
order: restored-key set, footprint, minimum live-until check, storage map,
PRNG-seed length check, host run, then the change set and encoded events on
success, or the embedded error with empty changes and events. -/
def invoke_host_function (encodeEvent : ContractEvent → List Nat)
    (hostRun : HostRun) (resources : SorobanResources)
    (restored_rw_entry_indices : List Nat) (ledger_info : LedgerInfo)
    (ledger_entries : List LedgerEntry) (ttl_entries : List (Option TtlEntry))
    (base_prng_seed : List Nat) :
    Except HostError InvokeHostFunctionResult :=
  match build_restored_key_set resources restored_rw_entry_indices with
  | .error e => .error e
  | .ok restored_keys =>
  match build_storage_footprint_from_xdr resources.footprint with
  | .error e => .error e
  | .ok footprint =>
  let current_ledger_seq := ledger_info.sequence_number
  match ledger_info.min_live_until_ledger_checked .persistent with
  | none => .error ⟨.context, .internalError⟩
  | some min_live_until_ledger =>
  match build_storage_map_from_xdr_ledger_entries footprint ledger_entries
      ttl_entries current_ledger_seq false with
  | .error e => .error e
  | .ok (storage_map, init_ttl_map) =>
  let init_storage_map := storage_map
  if base_prng_seed.length = 32 then
    match hostRun ⟨footprint, storage_map⟩ with
    | .error e => .error e
    | .ok (result, final_storage, events) =>
      match result with
      | .ok v =>
        let init_storage_snapshot : SnapshotSource :=
          fun k => (alookup init_storage_map k).bind id
        match get_ledger_changes final_storage init_storage_snapshot init_ttl_map
            min_live_until_ledger restored_keys current_ledger_seq with
        | .error e => .error e
        | .ok ledger_changes =>
          .ok { encoded_invoke_result := .ok v
                ledger_changes := ledger_changes
                encoded_contract_events := encode_contract_events encodeEvent events }
      | .error e =>
        .ok { encoded_invoke_result := .error e
              ledger_changes := []
              encoded_contract_events := [] }
  else .error ⟨.context, .internalError⟩

/-! ## Restore-op simulation (`soroban-simulation/src/resources.rs`) -/

/-- `LedgerEntryRentChange` from `fees.rs`. -/
structure LedgerEntryRentChange where
  is_persistent : Bool
  is_code_entry : Bool
  old_size_bytes : Nat
  new_size_bytes : Nat
  old_live_until_ledger : Nat
  new_live_until_ledger : Nat
deriving DecidableEq, Repr

/-- The error cases of `simulate_restore_op_resources` (the source uses
`anyhow` errors; only the case tags matter here). -/
inductive SimulationError
  | nonPersistentKey
  | missingEntry
  | missingTtl
  | liveUntilOverflow
  | sizeOverflow
deriving DecidableEq, Repr

/-- Whether the key is a code entry, `matches!(key.discriminant(),
LedgerEntryType::ContractCode)`. -/
def is_code_key : LedgerKey → Bool
  | .contractCode _ => true
  | _ => false

/-- The per-key loop of `simulate_restore_op_resources`: accumulate the
saturating byte sum, the rent changes and the restored keys. -/
def simulate_restore_loop (snapshot_source : SnapshotSource)
    (sequence_number : Nat) (restored_live_until_ledger : Nat) :
    List LedgerKey → Nat × List LedgerEntryRentChange × List LedgerKey →
    Except SimulationError (Nat × List LedgerEntryRentChange × List LedgerKey)
  | [], acc => .ok acc
  | key :: rest, (restored_bytes, rent_changes, restored_keys) =>
    if get_key_durability key = some ContractDataDurability.persistent then
      match snapshot_source key with
      | none => .error .missingEntry
      | some (entry, live_until) =>
        match live_until with
        | none => .error .missingTtl
        | some current_live_until_ledger =>
          if sequence_number ≤ current_live_until_ledger then
            -- entry is still live: skip
            simulate_restore_loop snapshot_source sequence_number
              restored_live_until_ledger rest
              (restored_bytes, rent_changes, restored_keys)
          else
            if entry.xdrSize < U32LIM then
              let entry_rent_size := entry_size_for_rent entry entry.xdrSize
              simulate_restore_loop snapshot_source sequence_number
                restored_live_until_ledger rest
                (u32sat (restored_bytes + entry.xdrSize),
                  rent_changes ++
                    [{ is_persistent := true
                       is_code_entry := is_code_key key
                       old_size_bytes := 0
                       new_size_bytes := entry_rent_size
                       old_live_until_ledger := 0
                       new_live_until_ledger := restored_live_until_ledger }],
                  restored_keys ++ [key])
            else .error .sizeOverflow
    else .error .nonPersistentKey

/-- `simulate_restore_op_resources` from `resources.rs`: every key must be
persistent and present in the snapshot with a TTL; live keys are skipped;
restored keys contribute their encoded XDR size to the saturating byte sum
and a rent change from `(0, 0)` to the minimum persistent live-until ledger;
the footprint is read-write only and sorted. -/
def simulate_restore_op_resources (keys_to_restore : List LedgerKey)
    (snapshot_source : SnapshotSource) (ledger_info : LedgerInfo) :
    Except SimulationError (SorobanResources × List LedgerEntryRentChange) :=
  match ledger_info.min_live_until_ledger_checked .persistent with
  | none => .error .liveUntilOverflow
  | some restored_live_until_ledger =>
    match simulate_restore_loop snapshot_source ledger_info.sequence_number
        restored_live_until_ledger keys_to_restore (0, [], []) with
    | .error e => .error e
    | .ok (restored_bytes, rent_changes, restored_keys) =>
      .ok ({ footprint :=
               { read_only := []
                 read_write := List.insertionSort keyLE restored_keys }
             instructions := 0
             disk_read_bytes := restored_bytes
             write_bytes := restored_bytes },
           rent_changes)

/-! ## Rent-write-fee curve

`compute_rent_write_fee_per_1kb` is implemented in the fee engine of the
repository, outside the provided sources; only its tests
(`soroban-env-host/tests/fees.rs`) are provided. The definition below is
modelled from the specification (linear interpolation below the target,
clamped growth above it, floored at the minimum) and pinned against every
test vector of `tests/fees.rs`. -/

/-- `MINIMUM_RENT_WRITE_FEE_PER_1KB`; its value is pinned by
`test_compute_write_fee_with_negative_low` in `tests/fees.rs`. -/
def MINIMUM_RENT_WRITE_FEE_PER_1KB : Int := 1000

/-- i64 bounds. -/
def I64MAX : Int := 2 ^ 63 - 1

/-- i64 lower bound. -/
def I64MIN : Int := -(2 ^ 63)

/-- Clamp into the i64 range. -/
def i64clamp (x : Int) : Int := max I64MIN (min x I64MAX)

/-- Ceiling division for a positive denominator (0 when the denominator is
not positive, matching the convention of Euclidean division by zero). -/
def ceil_div (num denom : Int) : Int := (num + denom - 1).ediv denom

/-- `RentWriteFeeConfiguration` from `fees.rs`. -/
structure RentWriteFeeConfiguration where
  state_target_size_bytes : Int
  rent_fee_1kb_state_size_low : Int
  rent_fee_1kb_state_size_high : Int
  state_size_rent_fee_growth_factor : Int
deriving DecidableEq, Repr

/-- Modelled from the spec: `compute_rent_write_fee_per_1kb` is not among
the provided sources (only its tests are). Below the target state size the
fee is the linear interpolation between the low and high fee (with ceiling
rounding, pinned by the `5723` and negative-low test vectors); above the
target it grows by the growth factor, computed in wide arithmetic and
clamped to the i64 range; the result is floored at
`MINIMUM_RENT_WRITE_FEE_PER_1KB`. -/
def compute_rent_write_fee_per_1kb (state_size : Int)
    (fee_config : RentWriteFeeConfiguration) : Int :=
  let fee_rate_multiplier :=
    fee_config.rent_fee_1kb_state_size_high - fee_config.rent_fee_1kb_state_size_low
  let computed :=
    if state_size ≤ fee_config.state_target_size_bytes then
      fee_config.rent_fee_1kb_state_size_low +
        ceil_div (fee_rate_multiplier * state_size) fee_config.state_target_size_bytes
    else
      i64clamp (fee_config.rent_fee_1kb_state_size_high +
        (fee_config.state_size_rent_fee_growth_factor * fee_rate_multiplier *
          (state_size - fee_config.state_target_size_bytes)).ediv
          fee_config.state_target_size_bytes)
  max computed MINIMUM_RENT_WRITE_FEE_PER_1KB

/-! ## Helper definitions used in theorem statements -/

/-- Whether an entry is a contract-code entry. -/
def is_contract_code_entry (entry : LedgerEntry) : Bool :=
  match entry.data with
  | .contractCode _ _ _ => true
  | _ => false

/-- The filter kept by `encode_contract_events`: not diagnostic, not from a
failed call. -/
def keep_event (e : HostEvent) : Bool :=
  !e.failed_call && decide (e.event.type_ ≠ ContractEventType.diagnostic)

/-- Whether a key is restored by `simulate_restore_op_resources`: present in
the snapshot with a TTL strictly below the current ledger sequence. -/
def restore_candidate (snapshot_source : SnapshotSource) (sequence_number : Nat)
    (k : LedgerKey) : Bool :=
  match snapshot_source k with
  | some (_, some live_until) => decide (live_until < sequence_number)
  | _ => false

/-- The snapshot entry of a key (default value when absent; only used under
`restore_candidate`). -/
def snapshot_entry (snapshot_source : SnapshotSource) (k : LedgerKey) : LedgerEntry :=
  match snapshot_source k with
  | some (e, _) => e
  | none => ⟨.other 0 0, 0⟩

/-- The rent change emitted by `simulate_restore_op_resources` for one
restored key. -/
def restore_rent_change (snapshot_source : SnapshotSource)
    (restored_live_until_ledger : Nat) (k : LedgerKey) : LedgerEntryRentChange :=
  { is_persistent := true
    is_code_entry := is_code_key k
    old_size_bytes := 0
    new_size_bytes :=
      entry_size_for_rent (snapshot_entry snapshot_source k)
        (snapshot_entry snapshot_source k).xdrSize
    old_live_until_ledger := 0
    new_live_until_ledger := restored_live_until_ledger }

/-- The saturating byte sum accumulated by `simulate_restore_op_resources`
over the restored keys. -/
def saturating_size_sum (snapshot_source : SnapshotSource) (ks : List LedgerKey) : Nat :=
  ks.foldl (fun acc k => u32sat (acc + (snapshot_entry snapshot_source k).xdrSize)) 0

/-- Whether a change record carries a decreasing TTL change. -/
def ttl_decreased (c : LedgerEntryChange) : Bool :=
  match c.ttl_change with
  | some tc => decide (tc.new_live_until_ledger < tc.old_live_until_ledger)
  | none => false

/-- Fixture: a durable read-write key whose final storage value was deleted. -/
def deleted_entry_key : LedgerKey := .contractData 1 2 .persistent

/-- Fixture: storage after an invocation that deleted the entry of
`deleted_entry_key`. -/
def deleted_entry_storage : Storage :=
  ⟨⟨[(deleted_entry_key, AccessType.readWrite)]⟩, [(deleted_entry_key, none)]⟩

/-- Fixture: the initial snapshot holding the later-deleted entry with
live-until ledger 100. -/
def deleted_entry_snapshot : SnapshotSource := fun k =>
  if k = deleted_entry_key
  then some (⟨.contractData 1 2 .persistent 0, 10⟩, some 100)
  else none

/-- Fixture: footprint with one temporary and one persistent contract-data
key. -/
def mixed_footprint : Footprint :=
  ⟨[(LedgerKey.contractData 1 1 .temporary, AccessType.readWrite),
    (LedgerKey.contractData 2 2 .persistent, AccessType.readWrite)]⟩

/-- Fixture: the two ledger entries for `mixed_footprint`. -/
def mixed_entries : List LedgerEntry :=
  [⟨.contractData 1 1 .temporary 0, 5⟩, ⟨.contractData 2 2 .persistent 0, 6⟩]

/-- Fixture: both TTL records expired at ledger 100. -/
def mixed_ttls : List (Option TtlEntry) := [some ⟨11, 50⟩, some ⟨22, 60⟩]

/-- Fixture: the storage map produced in recording mode from the mixed
fixtures at ledger 100 (expired temporary key declared-but-absent, expired
persistent entry kept). -/
def mixed_recording_storage_map : StorageMap :=
  [(LedgerKey.contractData 2 2 .persistent,
      some (⟨.contractData 2 2 .persistent 0, 6⟩, some 60)),
    (LedgerKey.contractData 1 1 .temporary, none)]

/-- Fixture: an expired persistent contract-data key for the bulk-restore
counterexample. -/
def restore_bulk_key : LedgerKey := .contractData 3 3 .persistent

/-- Fixture: snapshot holding a 2-GiB entry for `restore_bulk_key`,
expired at ledger 1. -/
def restore_bulk_snapshot : SnapshotSource := fun k =>
  if k = restore_bulk_key
  then some (⟨.contractData 3 3 .persistent 0, 2 ^ 31⟩, some 0)
  else none

/-- Fixture: the same key listed three times (the restore helper does not
deduplicate), so the byte sum exceeds `u32::MAX`. -/
def restore_bulk_keys : List LedgerKey :=
  [restore_bulk_key, restore_bulk_key, restore_bulk_key]

/-- Fixture: ledger info at sequence 1 with a persistent minimum TTL of 100. -/
def restore_bulk_info : LedgerInfo := ⟨1, 16, 100⟩



end SorobanE2E

deriving instance DecidableEq for Except

namespace SorobanE2E

/-! # Theorems -/

/-! ## Association-list lemmas -/

theorem akeys_nil {κ α : Type} : akeys ([] : List (κ × α)) = [] := rfl

theorem akeys_cons {κ α : Type} (p : κ × α) (l : List (κ × α)) :
    akeys (p :: l) = p.1 :: akeys l := rfl

theorem ainsert_cons_self {κ α : Type} [DecidableEq κ] (rest : List (κ × α)) (k : κ)
    (v0 v : α) : ainsert ((k, v0) :: rest) k v = (k, v) :: rest := by
  simp [ainsert]

theorem ainsert_cons_ne {κ α : Type} [DecidableEq κ] (rest : List (κ × α)) (pk k : κ)
    (pv v : α) (h : pk ≠ k) :
    ainsert ((pk, pv) :: rest) k v = (pk, pv) :: ainsert rest k v := by
  simp [ainsert, h]

theorem alookup_ainsert_self {κ α : Type} [DecidableEq κ] (l : List (κ × α)) (k : κ) (v : α) :
    alookup (ainsert l k v) k = some v := by
  induction l with
  | nil => simp [ainsert, alookup]
  | cons p rest ih =>
    obtain ⟨pk, pv⟩ := p
    by_cases h : pk = k
    · simp [ainsert, h, alookup]
    · simp [ainsert, h, alookup, ih]

theorem alookup_ainsert_ne {κ α : Type} [DecidableEq κ] (l : List (κ × α)) (k : κ) (v : α)
    (k' : κ) (h : k ≠ k') : alookup (ainsert l k v) k' = alookup l k' := by
  induction l with
  | nil => simp [ainsert, alookup, h]
  | cons p rest ih =>
    obtain ⟨pk, pv⟩ := p
    by_cases hp : pk = k
    · subst hp
      simp [ainsert, alookup, h]
    · simp [ainsert, hp, alookup, ih]

theorem mem_akeys_ainsert {κ α : Type} [DecidableEq κ] (l : List (κ × α)) (k : κ) (v : α)
    (k' : κ) : k' ∈ akeys (ainsert l k v) ↔ k' = k ∨ k' ∈ akeys l := by
  induction l with
  | nil => simp [ainsert, akeys]
  | cons p rest ih =>
    obtain ⟨pk, pv⟩ := p
    by_cases hp : pk = k
    · subst hp
      rw [ainsert_cons_self]
      simp only [akeys_cons, List.mem_cons]
      tauto
    · rw [ainsert_cons_ne rest pk k pv v hp]
      simp only [akeys_cons, List.mem_cons, ih]
      tauto

theorem nodup_akeys_ainsert {κ α : Type} [DecidableEq κ] (l : List (κ × α)) (k : κ) (v : α)
    (h : (akeys l).Nodup) : (akeys (ainsert l k v)).Nodup := by
  induction l with
  | nil => simp [ainsert, akeys]
  | cons p rest ih =>
    obtain ⟨pk, pv⟩ := p
    rw [akeys_cons, List.nodup_cons] at h
    by_cases hp : pk = k
    · subst hp
      rw [ainsert_cons_self, akeys_cons, List.nodup_cons]
      exact h
    · rw [ainsert_cons_ne rest pk k pv v hp]
      simp only [akeys_cons, List.nodup_cons]
      refine ⟨?_, ih h.2⟩
      intro hmem
      rcases (mem_akeys_ainsert rest k v pk).mp hmem with h' | h'
      · exact hp h'
      · exact h.1 h'

theorem alookup_isSome_iff {κ α : Type} [DecidableEq κ] (l : List (κ × α)) (k : κ) :
    (alookup l k).isSome = true ↔ k ∈ akeys l := by
  induction l with
  | nil => simp [alookup, akeys]
  | cons p rest ih =>
    obtain ⟨pk, pv⟩ := p
    by_cases hp : pk = k
    · subst hp
      simp [alookup, akeys]
    · simp only [alookup, if_neg hp, akeys_cons, List.mem_cons, ih]
      constructor
      · exact fun h => Or.inr h
      · rintro (h | h)
        · exact absurd h.symm hp
        · exact h

theorem alookup_eq_none_of_not_mem {κ α : Type} [DecidableEq κ] (l : List (κ × α)) (k : κ)
    (h : k ∉ akeys l) : alookup l k = none := by
  cases hl : alookup l k with
  | none => rfl
  | some v =>
    exact absurd ((alookup_isSome_iff l k).mp (by simp [hl])) h

/-! ## Claim C9: rent-write-fee curve -/

/-- The model of `compute_rent_write_fee_per_1kb` matches every test vector
of `test_compute_rent_write_fee`, `test_compute_write_fee_with_negative_low`
and `test_compute_write_fee_clamp_after_target` in
`soroban-env-host/tests/fees.rs`. -/
theorem compute_rent_write_fee_matches_fee_tests :
    (compute_rent_write_fee_per_1kb 0 ⟨100000, 100, 10000, 50⟩ =
        MINIMUM_RENT_WRITE_FEE_PER_1KB) ∧
    (compute_rent_write_fee_per_1kb 50000 ⟨100000, 100, 10000, 50⟩ =
        100 + (10000 - 100) / 2) ∧
    (compute_rent_write_fee_per_1kb 56789 ⟨100000, 100, 10000, 50⟩ = 5723) ∧
    (compute_rent_write_fee_per_1kb 100000 ⟨100000, 100, 10000, 50⟩ = 10000) ∧
    (compute_rent_write_fee_per_1kb 150000 ⟨100000, 100, 10000, 50⟩ =
        10000 + 50 * (10000 - 100) / 2) ∧
    (compute_rent_write_fee_per_1kb 580000 ⟨100000, 100, 10000, 50⟩ =
        10000 + 2376000) ∧
    (compute_rent_write_fee_per_1kb 50000000000000
        ⟨100000000000000, 1000000, 1000000000, 50⟩ =
        1000000 + (1000000000 - 1000000) / 2) ∧
    (compute_rent_write_fee_per_1kb 150000000000000
        ⟨100000000000000, 1000000, 1000000000, 50⟩ =
        1000000000 + 50 * (1000000000 - 1000000) / 2) ∧
    (compute_rent_write_fee_per_1kb 18181 ⟨100000, -1000, 10000, 50⟩ =
        MINIMUM_RENT_WRITE_FEE_PER_1KB) ∧
    (compute_rent_write_fee_per_1kb 18182 ⟨100000, -1000, 10000, 50⟩ =
        MINIMUM_RENT_WRITE_FEE_PER_1KB + 1) ∧
    (compute_rent_write_fee_per_1kb 150000 ⟨100000, -1000, 10000, 50⟩ =
        10000 + 50 * (10000 + 1000) / 2) ∧
    (compute_rent_write_fee_per_1kb 100001 ⟨100000, 10, 20, 50⟩ =
        MINIMUM_RENT_WRITE_FEE_PER_1KB) := by
  decide

/-- Claim C9 (confirmed, spec-modelled): for every state size and every
rent-write-fee configuration the result of `compute_rent_write_fee_per_1kb`
is at least `MINIMUM_RENT_WRITE_FEE_PER_1KB`, and when the state size is at
most the configured target it is the linear interpolation between the low
and the high fee, floored at that minimum. -/
theorem compute_rent_write_fee_min_and_interpolation (state_size : Int)
    (fee_config : RentWriteFeeConfiguration) :
    MINIMUM_RENT_WRITE_FEE_PER_1KB ≤
        compute_rent_write_fee_per_1kb state_size fee_config ∧
    (state_size ≤ fee_config.state_target_size_bytes →
      compute_rent_write_fee_per_1kb state_size fee_config =
        max (fee_config.rent_fee_1kb_state_size_low +
            ceil_div ((fee_config.rent_fee_1kb_state_size_high -
                fee_config.rent_fee_1kb_state_size_low) * state_size)
              fee_config.state_target_size_bytes)
          MINIMUM_RENT_WRITE_FEE_PER_1KB) := by
  constructor
  · exact le_max_right _ _
  · intro h
    rw [compute_rent_write_fee_per_1kb]
    simp only [h, if_true]

/-- Witness for claim C9 at the `50000`-below-target test configuration. -/
theorem compute_rent_write_fee_min_and_interpolation_witness :
    MINIMUM_RENT_WRITE_FEE_PER_1KB ≤
        compute_rent_write_fee_per_1kb 50000 ⟨100000, 100, 10000, 50⟩ ∧
    ((50000 : Int) ≤ 100000 →
      compute_rent_write_fee_per_1kb 50000 ⟨100000, 100, 10000, 50⟩ =
        max (100 + ceil_div ((10000 - 100) * 50000) 100000)
          MINIMUM_RENT_WRITE_FEE_PER_1KB) :=
  compute_rent_write_fee_min_and_interpolation 50000 ⟨100000, 100, 10000, 50⟩

/-! ## Claim C10: contract-event encoding -/

/-- Claim C10 (confirmed): `encode_contract_events` returns exactly the
encodings of the events that are neither diagnostic nor emitted during a
failed (rolled-back) call, in emission order; diagnostic and failed-call
events never contribute an element. -/
theorem encode_contract_events_eq_filter_map
    (encodeEvent : ContractEvent → List Nat) (events : Events) :
    encode_contract_events encodeEvent events =
      (events.filter keep_event).map (fun e => encodeEvent e.event) := by
  induction events with
  | nil => rfl
  | cons e rest ih =>
    by_cases h1 : e.failed_call = false ∧ e.event.type_ ≠ ContractEventType.diagnostic
    · have hk : keep_event e = true := by
        simp [keep_event, h1.1, h1.2]
      simp [encode_contract_events, h1, List.filter_cons, hk, ih]
    · have hk : keep_event e = false := by
        simp [keep_event]
        intro hfc
        by_contra hd
        exact h1 ⟨hfc, hd⟩
      simp [encode_contract_events, h1, List.filter_cons, hk, ih]

/-! ## Claim C5: rent-size helper -/

/-- Claim C5 counterexample: the claimed equivalence "the result equals `n`
iff the entry is not ContractCode" fails at `n = u32::MAX` for a
contract-code entry with positive module memory cost, because the saturating
addition leaves `n` unchanged. -/
theorem entry_size_for_rent_iff_claim_false :
    ¬ (∀ (entry : LedgerEntry) (n : Nat), n < U32LIM →
        (n ≤ entry_size_for_rent entry n ∧
          (entry_size_for_rent entry n = n ↔ is_contract_code_entry entry = false))) := by
  intro h
  have h1 := (h ⟨.contractCode 0 1 0, 0⟩ (U32LIM - 1) (by decide)).2
  have h2 : entry_size_for_rent ⟨.contractCode 0 1 0, 0⟩ (U32LIM - 1) = U32LIM - 1 := by
    decide
  exact absurd (h1.mp h2) (by decide)

/-- Claim C5 (corrected): `entry_size_for_rent` is at least the provided XDR
size; it equals the XDR size whenever the entry is not contract code; for a
contract-code entry it equals the XDR size exactly when the clamped module
memory cost is zero or the size is already `u32::MAX` (saturation). -/
theorem entry_size_for_rent_characterization (entry : LedgerEntry) (n : Nat)
    (h : n < U32LIM) :
    n ≤ entry_size_for_rent entry n ∧
    (is_contract_code_entry entry = false → entry_size_for_rent entry n = n) ∧
    (∀ hash cost payload, entry.data = LedgerEntryData.contractCode hash cost payload →
      (entry_size_for_rent entry n = n ↔
        min cost (U32LIM - 1) = 0 ∨ n = U32LIM - 1)) := by
  obtain ⟨data, xdrSize⟩ := entry
  cases data with
  | contractCode hash cost payload =>
    refine ⟨?_, ?_, ?_⟩
    · simp only [entry_size_for_rent, u32sat, U32LIM] at h ⊢
      omega
    · intro hfalse
      simp [is_contract_code_entry] at hfalse
    · intro hash1 cost1 payload1 hdata
      cases hdata
      simp only [entry_size_for_rent, u32sat, U32LIM] at h ⊢
      omega
  | account a p =>
    refine ⟨le_of_eq rfl, fun _ => rfl, ?_⟩
    intro hash1 cost1 payload1 hdata
    simp at hdata
  | trustline a b p =>
    refine ⟨le_of_eq rfl, fun _ => rfl, ?_⟩
    intro hash1 cost1 payload1 hdata
    simp at hdata
  | contractData c kv d p =>
    refine ⟨le_of_eq rfl, fun _ => rfl, ?_⟩
    intro hash1 cost1 payload1 hdata
    simp at hdata
  | other i p =>
    refine ⟨le_of_eq rfl, fun _ => rfl, ?_⟩
    intro hash1 cost1 payload1 hdata
    simp at hdata

/-- Witness for claim C5 at a concrete contract-code entry and size. -/
theorem entry_size_for_rent_characterization_witness :
    10 ≤ entry_size_for_rent ⟨.contractCode 0 5 0, 7⟩ 10 ∧
    (is_contract_code_entry ⟨.contractCode 0 5 0, 7⟩ = false →
      entry_size_for_rent ⟨.contractCode 0 5 0, 7⟩ 10 = 10) ∧
    (∀ hash cost payload,
      (⟨.contractCode 0 5 0, 7⟩ : LedgerEntry).data =
        LedgerEntryData.contractCode hash cost payload →
      (entry_size_for_rent ⟨.contractCode 0 5 0, 7⟩ 10 = 10 ↔
        min cost (U32LIM - 1) = 0 ∨ 10 = U32LIM - 1)) :=
  entry_size_for_rent_characterization ⟨.contractCode 0 5 0, 7⟩ 10 (by decide)

/-! ## Claim C6: footprint construction -/

/-- Folding the supported-key check plus insertion never fails and equals the
plain insertion fold. -/
theorem footprint_foldlM_eq (ks : List LedgerKey) (v : AccessType)
    (init : List (LedgerKey × AccessType)) :
    (ks.foldlM
      (fun acc k =>
        match check_supported_ledger_key_type k with
        | .error e => .error e
        | .ok _ => .ok (ainsert acc k v))
      init : Except HostError (List (LedgerKey × AccessType))) =
    .ok (ks.foldl (fun acc k => ainsert acc k v) init) := by
  induction ks generalizing init with
  | nil => rfl
  | cons k rest ih =>
    simp only [List.foldlM_cons, check_supported_ledger_key_type, List.foldl_cons]
    exact ih (ainsert init k v)

theorem mem_akeys_foldl_ainsert (ks : List LedgerKey) (v : AccessType)
    (init : List (LedgerKey × AccessType)) (k : LedgerKey) :
    k ∈ akeys (ks.foldl (fun acc k' => ainsert acc k' v) init) ↔
      k ∈ akeys init ∨ k ∈ ks := by
  induction ks generalizing init with
  | nil => simp
  | cons k0 rest ih =>
    simp only [List.foldl_cons, ih, mem_akeys_ainsert, List.mem_cons]
    tauto

theorem nodup_akeys_foldl_ainsert (ks : List LedgerKey) (v : AccessType)
    (init : List (LedgerKey × AccessType)) (h : (akeys init).Nodup) :
    (akeys (ks.foldl (fun acc k' => ainsert acc k' v) init)).Nodup := by
  induction ks generalizing init with
  | nil => exact h
  | cons k0 rest ih =>
    simp only [List.foldl_cons]
    exact ih (ainsert init k0 v) (nodup_akeys_ainsert init k0 v h)

theorem alookup_foldl_ainsert_not_mem (ks : List LedgerKey) (v : AccessType)
    (init : List (LedgerKey × AccessType)) (k : LedgerKey) (hk : k ∉ ks) :
    alookup (ks.foldl (fun acc k' => ainsert acc k' v) init) k = alookup init k := by
  induction ks generalizing init with
  | nil => rfl
  | cons k0 rest ih =>
    simp only [List.mem_cons, not_or] at hk
    simp only [List.foldl_cons]
    rw [ih (ainsert init k0 v) hk.2, alookup_ainsert_ne init k0 v k (fun he => hk.1 he.symm)]

theorem alookup_foldl_ainsert_mem (ks : List LedgerKey) (v : AccessType)
    (init : List (LedgerKey × AccessType)) (k : LedgerKey) (hk : k ∈ ks) :
    alookup (ks.foldl (fun acc k' => ainsert acc k' v) init) k = some v := by
  induction ks generalizing init with
  | nil => cases hk
  | cons k0 rest ih =>
    simp only [List.foldl_cons]
    by_cases h : k ∈ rest
    · exact ih (ainsert init k0 v) h
    · have hk0 : k = k0 := by
        rcases List.mem_cons.mp hk with h' | h'
        · exact h'
        · exact absurd h' h
      subst hk0
      rw [alookup_foldl_ainsert_not_mem rest v (ainsert init k v) k h,
        alookup_ainsert_self]

/-- Claim C6 counterexample: footprint construction does not fail when a key
occurs in both declared lists; the duplicate key simply ends in the
read-only mode (read-only insertion happens second and overwrites). -/
theorem build_storage_footprint_duplicate_claim_false :
    ¬ (∀ fp : LedgerFootprint, (∃ k, k ∈ fp.read_only ∧ k ∈ fp.read_write) →
        ∃ e, build_storage_footprint_from_xdr fp = .error e) := by
  intro h
  obtain ⟨e, he⟩ :=
    h ⟨[.account 7], [.account 7]⟩ ⟨.account 7, by decide, by decide⟩
  have hok : build_storage_footprint_from_xdr ⟨[.account 7], [.account 7]⟩ =
      .ok ⟨[(.account 7, .readOnly)]⟩ := rfl
  rw [hok] at he
  exact Except.noConfusion he

/-- Claim C6 (corrected): footprint construction never fails on a duplicate
key across the two lists; on success every declared key is present exactly
once (keys are unique), every read-only key maps to ReadOnly (so a duplicate
across both modes ends read-only, as the read-only insertion happens last),
and every read-write key that is not also declared read-only maps to
ReadWrite. -/
theorem build_storage_footprint_characterization (fp : LedgerFootprint) :
    ∃ f, build_storage_footprint_from_xdr fp = .ok f ∧
      (akeys f.m).Nodup ∧
      (∀ k, k ∈ akeys f.m ↔ (k ∈ fp.read_only ∨ k ∈ fp.read_write)) ∧
      (∀ k, k ∈ fp.read_only → alookup f.m k = some AccessType.readOnly) ∧
      (∀ k, k ∈ fp.read_write → k ∉ fp.read_only →
        alookup f.m k = some AccessType.readWrite) := by
  refine ⟨⟨fp.read_only.foldl (fun acc k => ainsert acc k AccessType.readOnly)
    (fp.read_write.foldl (fun acc k => ainsert acc k AccessType.readWrite) [])⟩,
    ?_, ?_, ?_, ?_, ?_⟩
  · simp only [build_storage_footprint_from_xdr, footprint_foldlM_eq]
  · exact nodup_akeys_foldl_ainsert _ _ _
      (nodup_akeys_foldl_ainsert _ _ _ (by simp [akeys]))
  · intro k
    rw [mem_akeys_foldl_ainsert, mem_akeys_foldl_ainsert]
    simp [akeys]
    tauto
  · intro k hk
    exact alookup_foldl_ainsert_mem _ _ _ _ hk
  · intro k hk hnk
    rw [alookup_foldl_ainsert_not_mem _ _ _ _ hnk]
    exact alookup_foldl_ainsert_mem _ _ _ _ hk

/-! ## `collect_results` lemmas -/

theorem collect_results_ok_length {α β : Type} (f : α → Except HostError β)
    (l : List α) (res : List β) (h : collect_results f l = .ok res) :
    res.length = l.length := by
  induction l generalizing res with
  | nil =>
    rw [collect_results] at h
    cases h
    rfl
  | cons a rest ih =>
    rw [collect_results] at h
    cases hfa : f a with
    | error e => rw [hfa] at h; exact Except.noConfusion h
    | ok b =>
      rw [hfa] at h
      cases hrec : collect_results f rest with
      | error e => rw [hrec] at h; exact Except.noConfusion h
      | ok bs =>
        rw [hrec] at h
        cases h
        simp [ih bs hrec]

theorem collect_results_ok_zip {α β : Type} (f : α → Except HostError β)
    (l : List α) (res : List β) (h : collect_results f l = .ok res) :
    ∀ p ∈ l.zip res, f p.1 = .ok p.2 := by
  induction l generalizing res with
  | nil => intro p hp; simp at hp
  | cons a rest ih =>
    rw [collect_results] at h
    cases hfa : f a with
    | error e => rw [hfa] at h; exact Except.noConfusion h
    | ok b =>
      rw [hfa] at h
      cases hrec : collect_results f rest with
      | error e => rw [hrec] at h; exact Except.noConfusion h
      | ok bs =>
        rw [hrec] at h
        cases h
        intro p hp
        rcases List.mem_cons.mp (by simpa [List.zip_cons_cons] using hp) with h' | h'
        · subst h'; simpa using hfa
        · exact ih bs hrec p h'

theorem collect_results_ok_map {α β γ : Type} (f : α → Except HostError β)
    (l : List α) (res : List β) (pi : β → γ) (sig : α → γ)
    (h : collect_results f l = .ok res)
    (hcomm : ∀ a b, f a = .ok b → pi b = sig a) :
    res.map pi = l.map sig := by
  induction l generalizing res with
  | nil =>
    rw [collect_results] at h
    cases h
    rfl
  | cons a rest ih =>
    rw [collect_results] at h
    cases hfa : f a with
    | error e => rw [hfa] at h; exact Except.noConfusion h
    | ok b =>
      rw [hfa] at h
      cases hrec : collect_results f rest with
      | error e => rw [hrec] at h; exact Except.noConfusion h
      | ok bs =>
        rw [hrec] at h
        cases h
        simp only [List.map_cons, hcomm a b hfa, ih bs hrec]

theorem collect_results_error {α β : Type} (f : α → Except HostError β)
    (l : List α) (e : HostError) (h : collect_results f l = .error e) :
    ∃ a ∈ l, f a = .error e := by
  induction l with
  | nil => rw [collect_results] at h; exact Except.noConfusion h
  | cons a rest ih =>
    rw [collect_results] at h
    cases hfa : f a with
    | error e1 =>
      rw [hfa] at h
      injection h with he
      exact ⟨a, List.mem_cons_self a rest, he ▸ hfa⟩
    | ok b =>
      rw [hfa] at h
      cases hrec : collect_results f rest with
      | error e1 =>
        rw [hrec] at h
        injection h with he
        obtain ⟨x, hx, hfx⟩ := ih (he ▸ hrec)
        exact ⟨x, List.mem_cons_of_mem a hx, hfx⟩
      | ok bs => rw [hrec] at h; exact Except.noConfusion h

/-! ## Lemmas on the change-set builder stages -/

theorem new_ttl_part_mono (e : LedgerEntry) (lu : Option Nat)
    (ttl1 ttl2 : Option LedgerEntryLiveUntilChange)
    (h : new_ttl_part (some (e, lu)) ttl1 = .ok ttl2) :
    ∀ tc, ttl2 = some tc →
      tc.old_live_until_ledger ≤ tc.new_live_until_ledger := by
  intro tc htc
  cases ttl1 with
  | none =>
    simp only [new_ttl_part] at h
    cases h
    exact Option.noConfusion htc
  | some tc1 =>
    cases lu with
    | none =>
      simp only [new_ttl_part] at h
      exact Except.noConfusion h
    | some nl =>
      simp only [new_ttl_part] at h
      cases h
      cases htc
      exact Nat.le_max_right nl tc1.old_live_until_ledger

theorem access_part_encoded_key (footprint : Footprint) (minL : Nat)
    (rk : Option (List LedgerKey)) (key : LedgerKey)
    (entryOpt : Option (LedgerEntry × Option Nat)) (old_size : Nat)
    (ttl2 : Option LedgerEntryLiveUntilChange) (c : LedgerEntryChange)
    (h : access_part footprint minL rk key entryOpt old_size ttl2 = .ok c) :
    c.encoded_key = key := by
  cases hal : alookup footprint.m key with
  | none =>
    simp only [access_part, hal] at h
    exact Except.noConfusion h
  | some at1 =>
    cases at1 with
    | readOnly =>
      simp only [access_part, hal] at h
      cases h
      rfl
    | readWrite =>
      cases entryOpt with
      | none =>
        simp only [access_part, hal] at h
        cases h
        rfl
      | some p =>
        obtain ⟨entry, lu⟩ := p
        simp only [access_part, hal] at h
        split at h <;> (cases h; rfl)

theorem access_part_ttl_mono (footprint : Footprint) (minL : Nat)
    (rk : Option (List LedgerKey)) (key : LedgerKey)
    (entryOpt : Option (LedgerEntry × Option Nat)) (old_size : Nat)
    (ttl2 : Option LedgerEntryLiveUntilChange) (c : LedgerEntryChange)
    (h : access_part footprint minL rk key entryOpt old_size ttl2 = .ok c)
    (hmono : ∀ tc, ttl2 = some tc →
      tc.old_live_until_ledger ≤ tc.new_live_until_ledger) :
    ∀ tc, c.ttl_change = some tc →
      tc.old_live_until_ledger ≤ tc.new_live_until_ledger := by
  intro tc htc
  cases hal : alookup footprint.m key with
  | none =>
    simp only [access_part, hal] at h
    exact Except.noConfusion h
  | some at1 =>
    cases at1 with
    | readOnly =>
      simp only [access_part, hal] at h
      cases h
      exact hmono tc htc
    | readWrite =>
      cases entryOpt with
      | none =>
        simp only [access_part, hal] at h
        cases h
        exact hmono tc htc
      | some p =>
        obtain ⟨entry, lu⟩ := p
        simp only [access_part, hal] at h
        split at h
        · cases h
          cases ttl2 with
          | none => exact Option.noConfusion htc
          | some tc2 =>
            simp only [Option.map_some] at htc
            cases htc
            exact Nat.zero_le _
        · cases h
          exact hmono tc htc

theorem old_entry_part_error (snap : SnapshotSource) (seq : Nat) (key : LedgerKey)
    (ttl0 : Option LedgerEntryLiveUntilChange) (e : HostError)
    (h : old_entry_part snap seq key ttl0 = .error e) :
    e = ⟨.storage, .internalError⟩ := by
  cases hs : snap key with
  | none =>
    simp only [old_entry_part, hs] at h
    exact Except.noConfusion h
  | some p =>
    obtain ⟨old_entry, old_lu⟩ := p
    cases ttl0 with
    | none =>
      simp only [old_entry_part, hs] at h
      exact Except.noConfusion h
    | some tc =>
      cases old_lu with
      | none =>
        simp only [old_entry_part, hs] at h
        injection h with he
        exact he.symm
      | some old =>
        simp only [old_entry_part, hs] at h
        split at h <;> exact Except.noConfusion h

theorem new_ttl_part_error (entryOpt : Option (LedgerEntry × Option Nat))
    (ttl1 : Option LedgerEntryLiveUntilChange) (e : HostError)
    (h : new_ttl_part entryOpt ttl1 = .error e) :
    e = ⟨.storage, .internalError⟩ := by
  cases entryOpt with
  | none =>
    simp only [new_ttl_part] at h
    exact Except.noConfusion h
  | some p =>
    obtain ⟨e1, lu⟩ := p
    cases ttl1 with
    | none =>
      simp only [new_ttl_part] at h
      exact Except.noConfusion h
    | some tc =>
      cases lu with
      | none =>
        simp only [new_ttl_part] at h
        injection h with he
        exact he.symm
      | some nl =>
        simp only [new_ttl_part] at h
        exact Except.noConfusion h

theorem access_part_error (footprint : Footprint) (minL : Nat)
    (rk : Option (List LedgerKey)) (key : LedgerKey)
    (entryOpt : Option (LedgerEntry × Option Nat)) (old_size : Nat)
    (ttl2 : Option LedgerEntryLiveUntilChange) (e : HostError)
    (h : access_part footprint minL rk key entryOpt old_size ttl2 = .error e) :
    e = ⟨.storage, .internalError⟩ := by
  cases hal : alookup footprint.m key with
  | none =>
    simp only [access_part, hal] at h
    injection h with he
    exact he.symm
  | some at1 =>
    cases at1 with
    | readOnly =>
      simp only [access_part, hal] at h
      exact Except.noConfusion h
    | readWrite =>
      cases entryOpt with
      | none =>
        simp only [access_part, hal] at h
        exact Except.noConfusion h
      | some p =>
        obtain ⟨entry, lu⟩ := p
        simp only [access_part, hal] at h
        split at h <;> exact Except.noConfusion h

theorem process_ledger_entry_change_encoded_key (footprint : Footprint)
    (snap : SnapshotSource) (tm : TtlEntryMap) (minL : Nat)
    (rk : Option (List LedgerKey)) (seq : Nat) (key : LedgerKey)
    (entryOpt : Option (LedgerEntry × Option Nat)) (c : LedgerEntryChange)
    (h : process_ledger_entry_change footprint snap tm minL rk seq key entryOpt =
      .ok c) : c.encoded_key = key := by
  rw [process_ledger_entry_change] at h
  cases h1 : old_entry_part snap seq key (ttl_change_initial tm key) with
  | error e1 =>
    simp only [h1] at h
    exact Except.noConfusion h
  | ok p =>
    obtain ⟨old_size, ttl1⟩ := p
    simp only [h1] at h
    cases h2 : new_ttl_part entryOpt ttl1 with
    | error e2 =>
      simp only [h2] at h
      exact Except.noConfusion h
    | ok ttl2 =>
      simp only [h2] at h
      exact access_part_encoded_key _ _ _ _ _ _ _ _ h

theorem process_ledger_entry_change_ttl_mono (footprint : Footprint)
    (snap : SnapshotSource) (tm : TtlEntryMap) (minL : Nat)
    (rk : Option (List LedgerKey)) (seq : Nat) (key : LedgerKey)
    (e1 : LedgerEntry) (lu : Option Nat) (c : LedgerEntryChange)
    (h : process_ledger_entry_change footprint snap tm minL rk seq key
      (some (e1, lu)) = .ok c) :
    ∀ tc, c.ttl_change = some tc →
      tc.old_live_until_ledger ≤ tc.new_live_until_ledger := by
  rw [process_ledger_entry_change] at h
  cases h1 : old_entry_part snap seq key (ttl_change_initial tm key) with
  | error er =>
    simp only [h1] at h
    exact Except.noConfusion h
  | ok p =>
    obtain ⟨old_size, ttl1⟩ := p
    simp only [h1] at h
    cases h2 : new_ttl_part (some (e1, lu)) ttl1 with
    | error er =>
      simp only [h2] at h
      exact Except.noConfusion h
    | ok ttl2 =>
      simp only [h2] at h
      exact access_part_ttl_mono _ _ _ _ _ _ _ _ h
        (new_ttl_part_mono e1 lu ttl1 ttl2 h2)

theorem process_ledger_entry_change_error (footprint : Footprint)
    (snap : SnapshotSource) (tm : TtlEntryMap) (minL : Nat)
    (rk : Option (List LedgerKey)) (seq : Nat) (key : LedgerKey)
    (entryOpt : Option (LedgerEntry × Option Nat)) (e : HostError)
    (h : process_ledger_entry_change footprint snap tm minL rk seq key entryOpt =
      .error e) : e = ⟨.storage, .internalError⟩ := by
  rw [process_ledger_entry_change] at h
  cases h1 : old_entry_part snap seq key (ttl_change_initial tm key) with
  | error er =>
    simp only [h1] at h
    injection h with he
    exact he ▸ old_entry_part_error _ _ _ _ _ h1
  | ok p =>
    obtain ⟨old_size, ttl1⟩ := p
    simp only [h1] at h
    cases h2 : new_ttl_part entryOpt ttl1 with
    | error er =>
      simp only [h2] at h
      injection h with he
      exact he ▸ new_ttl_part_error _ _ _ h2
    | ok ttl2 =>
      simp only [h2] at h
      exact access_part_error _ _ _ _ _ _ _ _ h

/-! ## Claim C2: TTL monotonicity of the change set -/

/-- Claim C2 counterexample: for a durable read-write key whose final value
was deleted by the invocation, `get_ledger_changes` emits a change whose
`new_live_until_ledger` is 0 while the old live-until ledger is positive, so
TTL monotonicity fails for deleted read-write entries. -/
theorem get_ledger_changes_deleted_entry_claim_false :
    ¬ (∀ (storage : Storage) (snap : SnapshotSource) (tm : TtlEntryMap)
        (minL : Nat) (rk : Option (List LedgerKey)) (seq : Nat)
        (changes : List LedgerEntryChange),
        get_ledger_changes storage snap tm minL rk seq = .ok changes →
        ∀ c ∈ changes, ∀ tc, c.ttl_change = some tc →
          tc.old_live_until_ledger ≤ tc.new_live_until_ledger) := by
  intro h
  have hsome : (match get_ledger_changes deleted_entry_storage
      deleted_entry_snapshot [] 1000 none 50 with
      | .ok cs => cs.any ttl_decreased
      | .error _ => false) = true := by decide
  cases hrun : get_ledger_changes deleted_entry_storage deleted_entry_snapshot
      [] 1000 none 50 with
  | error e => rw [hrun] at hsome; exact Bool.noConfusion hsome
  | ok changes =>
    rw [hrun] at hsome
    have hmono := h deleted_entry_storage deleted_entry_snapshot [] 1000 none 50
      changes hrun
    obtain ⟨c, hc, hcb⟩ := List.any_eq_true.mp hsome
    cases htc : c.ttl_change with
    | none => rw [ttl_decreased, htc] at hcb; exact Bool.noConfusion hcb
    | some tc =>
      rw [ttl_decreased, htc] at hcb
      have hle := hmono c hc tc htc
      have hlt : tc.new_live_until_ledger < tc.old_live_until_ledger :=
        of_decide_eq_true hcb
      omega

/-- Claim C2 (corrected): every change produced by `get_ledger_changes` whose
key still has a present value in the final storage map satisfies TTL
monotonicity (`new_live_until ≥ old_live_until`); the change vector has one
record per storage-map binding. (For a read-write entry whose final value
was deleted the new live-until ledger is 0 and may lie strictly below the
old one, as the counterexample shows.) -/
theorem get_ledger_changes_ttl_monotone_for_present_entries (storage : Storage)
    (snap : SnapshotSource) (tm : TtlEntryMap) (minL : Nat)
    (rk : Option (List LedgerKey)) (seq : Nat)
    (changes : List LedgerEntryChange)
    (h : get_ledger_changes storage snap tm minL rk seq = .ok changes) :
    changes.length = storage.map.length ∧
    ∀ p ∈ storage.map.zip changes, ∀ el, p.1.2 = some el →
      ∀ tc, p.2.ttl_change = some tc →
        tc.old_live_until_ledger ≤ tc.new_live_until_ledger := by
  constructor
  · exact collect_results_ok_length _ _ _ h
  · intro p hp el hel tc htc
    have hf := collect_results_ok_zip _ _ _ h p hp
    obtain ⟨e1, lu⟩ := el
    rw [hel] at hf
    exact process_ledger_entry_change_ttl_mono _ _ _ _ _ _ _ _ _ _ hf tc htc

/-- Witness for claim C2: a read-write durable entry that stays present, with
its live-until ledger extended from 100 to 120. -/
theorem get_ledger_changes_ttl_monotone_witness :
    (([({ read_only := false
          encoded_key := deleted_entry_key
          old_entry_size_bytes_for_rent := 10
          encoded_new_value := some ⟨.contractData 1 2 .persistent 3, 11⟩
          new_entry_size_bytes_for_rent := 11
          ttl_change := some
            { key_hash := sha256_key_hash deleted_entry_key
              durability := .persistent
              entry_type := 2
              old_live_until_ledger := 100
              new_live_until_ledger := 120 } } : LedgerEntryChange)]).length =
      ([(deleted_entry_key,
          some (⟨.contractData 1 2 .persistent 3, 11⟩, some (120 : Nat)))] :
        StorageMap).length) ∧
    ∀ p ∈ (([(deleted_entry_key,
          some (⟨.contractData 1 2 .persistent 3, 11⟩, some (120 : Nat)))] :
        StorageMap)).zip
      ([({ read_only := false
           encoded_key := deleted_entry_key
           old_entry_size_bytes_for_rent := 10
           encoded_new_value := some ⟨.contractData 1 2 .persistent 3, 11⟩
           new_entry_size_bytes_for_rent := 11
           ttl_change := some
             { key_hash := sha256_key_hash deleted_entry_key
               durability := .persistent
               entry_type := 2
               old_live_until_ledger := 100
               new_live_until_ledger := 120 } } : LedgerEntryChange)]),
      ∀ el, p.1.2 = some el →
        ∀ tc, p.2.ttl_change = some tc →
          tc.old_live_until_ledger ≤ tc.new_live_until_ledger :=
  get_ledger_changes_ttl_monotone_for_present_entries
    ⟨⟨[(deleted_entry_key, AccessType.readWrite)]⟩,
      [(deleted_entry_key, some (⟨.contractData 1 2 .persistent 3, 11⟩, some 120))]⟩
    deleted_entry_snapshot [] 1000 none 50 _ (by decide)

/-- Witness for claim C6 at a concrete two-key footprint. -/
theorem build_storage_footprint_characterization_witness :
    ∃ f, build_storage_footprint_from_xdr ⟨[.account 1], [.account 2]⟩ = .ok f ∧
      (akeys f.m).Nodup ∧
      (∀ k, k ∈ akeys f.m ↔
        (k ∈ ([LedgerKey.account 1]) ∨ k ∈ ([LedgerKey.account 2]))) ∧
      (∀ k, k ∈ ([LedgerKey.account 1]) → alookup f.m k = some AccessType.readOnly) ∧
      (∀ k, k ∈ ([LedgerKey.account 2]) → k ∉ ([LedgerKey.account 1]) →
        alookup f.m k = some AccessType.readWrite) :=
  build_storage_footprint_characterization ⟨[.account 1], [.account 2]⟩

/-! ## Lemmas on storage-map construction -/

theorem ledger_entry_to_ledger_key_error (le : LedgerEntry) (e : HostError)
    (h : ledger_entry_to_ledger_key le = .error e) :
    e = ⟨.storage, .internalError⟩ := by
  obtain ⟨data, sz⟩ := le
  cases data with
  | other i p =>
    simp only [ledger_entry_to_ledger_key] at h
    injection h with he
    exact he.symm
  | account i p =>
    simp only [ledger_entry_to_ledger_key] at h
    exact Except.noConfusion h
  | trustline i a p =>
    simp only [ledger_entry_to_ledger_key] at h
    exact Except.noConfusion h
  | contractData c k d p =>
    simp only [ledger_entry_to_ledger_key] at h
    exact Except.noConfusion h
  | contractCode hh m p =>
    simp only [ledger_entry_to_ledger_key] at h
    exact Except.noConfusion h

/-- Every failure of the storage-map loop is a `Storage/InternalError`. -/
theorem build_storage_map_loop_error (footprint : Footprint) (num : Nat)
    (rec : Bool) (l : List (LedgerEntry × Option TtlEntry)) (sm : StorageMap)
    (tm : TtlEntryMap) (e : HostError)
    (h : build_storage_map_loop footprint num rec l sm tm = .error e) :
    e = ⟨.storage, .internalError⟩ := by
  induction l generalizing sm tm with
  | nil =>
    rw [build_storage_map_loop] at h
    exact Except.noConfusion h
  | cons q rest ih =>
    obtain ⟨le0, ttlOpt⟩ := q
    rw [build_storage_map_loop] at h
    split at h
    · rename_i e1 hk
      injection h with he
      exact he ▸ ledger_entry_to_ledger_key_error le0 e1 hk
    · rename_i key hk
      split at h
      · rename_i te
        split at h
        · injection h with he
          exact he.symm
        · split at h
          · exact ih _ _ h
          · split at h
            · exact ih _ _ h
            · injection h with he
              exact he.symm
      · split at h
        · injection h with he
          exact he.symm
        · injection h with he
          exact he.symm
        · split at h
          · exact ih _ _ h
          · injection h with he
            exact he.symm

/-- If the loop succeeds in enforcing mode, no supplied TTL record was
expired. -/
theorem build_storage_map_loop_ok_no_expired (footprint : Footprint)
    (num : Nat) (l : List (LedgerEntry × Option TtlEntry)) (sm : StorageMap)
    (tm : TtlEntryMap) (out : StorageMap × TtlEntryMap)
    (h : build_storage_map_loop footprint num false l sm tm = .ok out) :
    ∀ p ∈ l, ∀ te, p.2 = some te → num ≤ te.live_until_ledger_seq := by
  induction l generalizing sm tm with
  | nil =>
    intro p hp
    simp at hp
  | cons q rest ih =>
    obtain ⟨le0, ttlOpt⟩ := q
    rw [build_storage_map_loop] at h
    intro p hp te hte
    split at h
    · exact Except.noConfusion h
    · rename_i key hk
      split at h
      · rename_i te0
        split at h
        · exact Except.noConfusion h
        · rename_i hA
          have hnum : num ≤ te0.live_until_ledger_seq := by
            by_contra hc
            exact hA ⟨by omega, rfl⟩
          split at h
          · rcases List.mem_cons.mp hp with h1 | h1
            · rw [h1] at hte
              injection hte with hte0
              subst hte0
              exact hnum
            · exact ih _ _ h p h1 te hte
          · split at h
            · rcases List.mem_cons.mp hp with h1 | h1
              · rw [h1] at hte
                injection hte with hte0
                subst hte0
                exact hnum
              · exact ih _ _ h p h1 te hte
            · exact Except.noConfusion h
      · rcases List.mem_cons.mp hp with h1 | h1
        · rw [h1] at hte
          exact Option.noConfusion hte
        · split at h
          · exact Except.noConfusion h
          · exact Except.noConfusion h
          · split at h
            · exact ih _ _ h p h1 te hte
            · exact Except.noConfusion h

/-- An element of the right list of a zip of equal-length lists is hit by
some pair of the zip. -/
theorem exists_zip_left {α β : Type} :
    ∀ (l1 : List α) (l2 : List β) (b : β), b ∈ l2 → l1.length = l2.length →
      ∃ a, (a, b) ∈ l1.zip l2
  | [], [], b, hb, _ => by simp at hb
  | [], b2 :: t2, b, hb, hlen => by simp at hlen
  | a1 :: t1, [], b, hb, _ => by simp at hb
  | a1 :: t1, b2 :: t2, b, hb, hlen => by
    rcases List.mem_cons.mp hb with h1 | h1
    · exact ⟨a1, by simp [List.zip_cons_cons, h1]⟩
    · obtain ⟨a, ha⟩ := exists_zip_left t1 t2 b h1 (by simpa using hlen)
      exact ⟨a, List.mem_cons_of_mem _ ha⟩

/-- Whenever the loop succeeds, a key bound to an entry with a live-until
ledger below the current one must be persistent: expired temporary entries
are never inserted. -/
theorem build_storage_map_loop_value_invariant (footprint : Footprint)
    (num : Nat) (rec : Bool) (l : List (LedgerEntry × Option TtlEntry))
    (sm : StorageMap) (tm : TtlEntryMap) (sm' : StorageMap) (tm' : TtlEntryMap)
    (h : build_storage_map_loop footprint num rec l sm tm = .ok (sm', tm'))
    (hinv : ∀ k le lu, alookup sm k = some (some (le, some lu)) →
      num ≤ lu ∨ is_persistent_key k = true) :
    ∀ k le lu, alookup sm' k = some (some (le, some lu)) →
      num ≤ lu ∨ is_persistent_key k = true := by
  induction l generalizing sm tm with
  | nil =>
    rw [build_storage_map_loop] at h
    injection h with hpair
    rw [Prod.mk.injEq] at hpair
    obtain ⟨h1, h2⟩ := hpair
    subst h1
    exact hinv
  | cons q rest ih =>
    obtain ⟨le0, ttlOpt⟩ := q
    rw [build_storage_map_loop] at h
    split at h
    · exact Except.noConfusion h
    · rename_i key hk
      split at h
      · rename_i te0
        split at h
        · exact Except.noConfusion h
        · split at h
          · exact ih _ _ h hinv
          · rename_i hA hB
            split at h
            · refine ih _ _ h ?_
              intro k le1 lu1 hlk
              by_cases hkk : key = k
              · subst hkk
                rw [alookup_ainsert_self] at hlk
                injection hlk with hv
                injection hv with hv2
                have hlu : some te0.live_until_ledger_seq = some lu1 :=
                  congrArg Prod.snd hv2
                injection hlu with hlu1
                subst hlu1
                by_cases hexp : te0.live_until_ledger_seq < num
                · cases hpk : is_persistent_key key with
                  | true => exact Or.inr rfl
                  | false => exact absurd ⟨hexp, hpk⟩ hB
                · left
                  omega
              · rw [alookup_ainsert_ne _ _ _ _ hkk] at hlk
                exact hinv k le1 lu1 hlk
            · exact Except.noConfusion h
      · split at h
        · exact Except.noConfusion h
        · exact Except.noConfusion h
        · split at h
          · refine ih _ _ h ?_
            intro k le1 lu1 hlk
            by_cases hkk : key = k
            · subst hkk
              rw [alookup_ainsert_self] at hlk
              injection hlk with hv
              injection hv with hv2
              have hlu : (none : Option Nat) = some lu1 := congrArg Prod.snd hv2
              exact Option.noConfusion hlu
            · rw [alookup_ainsert_ne _ _ _ _ hkk] at hlk
              exact hinv k le1 lu1 hlk
          · exact Except.noConfusion h

/-- If every pair of the list whose derived key is `k` is a skipped expired
temporary pair (recording mode), the loop leaves the binding of `k`
untouched. -/
theorem build_storage_map_loop_untouched (footprint : Footprint) (num : Nat)
    (rec : Bool) (l : List (LedgerEntry × Option TtlEntry)) (sm : StorageMap)
    (tm : TtlEntryMap) (sm' : StorageMap) (tm' : TtlEntryMap) (k : LedgerKey)
    (h : build_storage_map_loop footprint num rec l sm tm = .ok (sm', tm'))
    (hskip : ∀ p ∈ l, ∀ key', ledger_entry_to_ledger_key p.1 = .ok key' →
      key' = k → ∃ te, p.2 = some te ∧ te.live_until_ledger_seq < num ∧
        is_persistent_key k = false ∧ rec = true) :
    alookup sm' k = alookup sm k := by
  induction l generalizing sm tm with
  | nil =>
    rw [build_storage_map_loop] at h
    injection h with hpair
    rw [Prod.mk.injEq] at hpair
    obtain ⟨h1, h2⟩ := hpair
    subst h1
    rfl
  | cons q rest ih =>
    obtain ⟨le0, ttlOpt⟩ := q
    have hskiptail : ∀ p ∈ rest, ∀ key', ledger_entry_to_ledger_key p.1 = .ok key' →
        key' = k → ∃ te, p.2 = some te ∧ te.live_until_ledger_seq < num ∧
          is_persistent_key k = false ∧ rec = true :=
      fun p hp key' h1 h2 => hskip p (List.mem_cons_of_mem _ hp) key' h1 h2
    rw [build_storage_map_loop] at h
    split at h
    · exact Except.noConfusion h
    · rename_i key hk
      by_cases hkk : key = k
      · obtain ⟨te, hte, hlt, hpers, hrec⟩ :=
          hskip (le0, ttlOpt) (List.mem_cons_self _ _) key hk hkk
        split at h
        · rename_i te0
          have hte2 : te0 = te := by
            injection hte
          subst hte2
          split at h
          · exact Except.noConfusion h
          · split at h
            · exact ih _ _ h hskiptail
            · rename_i hA hB
              rw [hkk] at hB
              exact absurd ⟨hlt, hpers⟩ hB
        · exact Option.noConfusion hte
      · split at h
        · rename_i te0
          split at h
          · exact Except.noConfusion h
          · split at h
            · exact ih _ _ h hskiptail
            · split at h
              · rw [ih _ _ h hskiptail]
                exact alookup_ainsert_ne _ _ _ _ hkk
              · exact Except.noConfusion h
        · split at h
          · exact Except.noConfusion h
          · exact Except.noConfusion h
          · split at h
            · rw [ih _ _ h hskiptail]
              exact alookup_ainsert_ne _ _ _ _ hkk
            · exact Except.noConfusion h

/-- If the only pairs of the list whose derived key is `k` are copies of
`(le, some te)` with `te` expired, `k` persistent, recording mode, then the
loop binds `k` to the expired persistent entry (auto-restore candidate). -/
theorem build_storage_map_loop_binding (footprint : Footprint) (num : Nat)
    (l : List (LedgerEntry × Option TtlEntry)) (sm : StorageMap)
    (tm : TtlEntryMap) (sm' : StorageMap) (tm' : TtlEntryMap) (k : LedgerKey)
    (le : LedgerEntry) (te : TtlEntry)
    (h : build_storage_map_loop footprint num true l sm tm = .ok (sm', tm'))
    (hcanon : ∀ p ∈ l, ∀ key', ledger_entry_to_ledger_key p.1 = .ok key' →
      key' = k → p = (le, some te))
    (hkey : ledger_entry_to_ledger_key le = .ok k)
    (hlt : te.live_until_ledger_seq < num)
    (hpers : is_persistent_key k = true)
    (hstart : (le, some te) ∈ l ∨
      alookup sm k = some (some (le, some te.live_until_ledger_seq))) :
    alookup sm' k = some (some (le, some te.live_until_ledger_seq)) := by
  induction l generalizing sm tm with
  | nil =>
    rcases hstart with h1 | h1
    · simp at h1
    · rw [build_storage_map_loop] at h
      injection h with hpair
      rw [Prod.mk.injEq] at hpair
      obtain ⟨h2, h3⟩ := hpair
      subst h2
      exact h1
  | cons q rest ih =>
    obtain ⟨le0, ttlOpt⟩ := q
    have hcanontail : ∀ p ∈ rest, ∀ key', ledger_entry_to_ledger_key p.1 = .ok key' →
        key' = k → p = (le, some te) :=
      fun p hp key' h1 h2 => hcanon p (List.mem_cons_of_mem _ hp) key' h1 h2
    rw [build_storage_map_loop] at h
    split at h
    · exact Except.noConfusion h
    · rename_i key0 hk0
      by_cases hkk : key0 = k
      · have hq := hcanon (le0, ttlOpt) (List.mem_cons_self _ _) key0 hk0 hkk
        have hle0 : le0 = le := congrArg Prod.fst hq
        have httl : ttlOpt = some te := congrArg Prod.snd hq
        split at h
        · rename_i te0
          have hte2 : te0 = te := by
            injection httl
          subst hte2
          subst hle0
          split at h
          · exact Except.noConfusion h
          · rename_i hA
            split at h
            · rename_i hB
              rw [hkk] at hB
              exact absurd hB.2 (by simp [hpers])
            · rename_i hB
              split at h
              · refine ih _ _ h hcanontail (Or.inr ?_)
                rw [hkk, alookup_ainsert_self]
              · exact Except.noConfusion h
        · exact Option.noConfusion httl
      · have hstartr : (le, some te) ∈ rest ∨
            alookup sm k = some (some (le, some te.live_until_ledger_seq)) := by
          rcases hstart with h1 | h1
          · rcases List.mem_cons.mp h1 with h2 | h2
            · exfalso
              have hle : le = le0 := congrArg Prod.fst h2
              rw [← hle] at hk0
              rw [hkey] at hk0
              injection hk0 with hkeq
              exact hkk hkeq.symm
            · exact Or.inl h2
          · exact Or.inr h1
        split at h
        · rename_i te0
          split at h
          · exact Except.noConfusion h
          · split at h
            · exact ih _ _ h hcanontail hstartr
            · split at h
              · refine ih _ _ h hcanontail ?_
                rcases hstartr with h1 | h1
                · exact Or.inl h1
                · right
                  rw [alookup_ainsert_ne _ _ _ _ hkk]
                  exact h1
              · exact Except.noConfusion h
        · split at h
          · exact Except.noConfusion h
          · exact Except.noConfusion h
          · split at h
            · refine ih _ _ h hcanontail ?_
              rcases hstartr with h1 | h1
              · exact Or.inl h1
              · right
                rw [alookup_ainsert_ne _ _ _ _ hkk]
                exact h1
            · exact Except.noConfusion h

/-- The fill loop preserves existing bindings. -/
theorem fill_footprint_keys_preserves :
    ∀ (fpm : List (LedgerKey × AccessType)) (sm : StorageMap) (k : LedgerKey)
      (v : Option (LedgerEntry × Option Nat)), alookup sm k = some v →
      alookup (fill_footprint_keys fpm sm) k = some v
  | [], sm, k, v, h => h
  | p :: rest, sm, k, v, h => by
    rw [fill_footprint_keys]
    simp only [List.foldl_cons]
    by_cases hc : (alookup sm p.1).isSome = true
    · rw [if_pos hc]
      exact fill_footprint_keys_preserves rest sm k v h
    · rw [if_neg hc]
      refine fill_footprint_keys_preserves rest _ k v ?_
      have hpk : p.1 ≠ k := by
        intro he
        rw [he, h] at hc
        simp at hc
      rw [alookup_ainsert_ne _ _ _ _ hpk]
      exact h

/-- The fill loop inserts `none` for a footprint key absent from the map. -/
theorem fill_footprint_keys_inserts_none :
    ∀ (fpm : List (LedgerKey × AccessType)) (sm : StorageMap) (k : LedgerKey),
      k ∈ akeys fpm → alookup sm k = none →
      alookup (fill_footprint_keys fpm sm) k = some none
  | [], sm, k, hmem, hnone => by simp [akeys] at hmem
  | p :: rest, sm, k, hmem, hnone => by
    rw [fill_footprint_keys]
    simp only [List.foldl_cons]
    by_cases hpk : p.1 = k
    · subst hpk
      rw [if_neg (by simp [hnone])]
      exact fill_footprint_keys_preserves rest _ p.1 none (alookup_ainsert_self _ _ _)
    · rw [akeys_cons, List.mem_cons] at hmem
      rcases hmem with h1 | h1
      · exact absurd h1.symm hpk
      · by_cases hc : (alookup sm p.1).isSome = true
        · rw [if_pos hc]
          exact fill_footprint_keys_inserts_none rest sm k h1 hnone
        · rw [if_neg hc]
          refine fill_footprint_keys_inserts_none rest _ k h1 ?_
          rw [alookup_ainsert_ne _ _ _ _ hpk]
          exact hnone

/-- The fill loop does not touch keys outside the footprint map. -/
theorem fill_footprint_keys_not_mem :
    ∀ (fpm : List (LedgerKey × AccessType)) (sm : StorageMap) (k : LedgerKey),
      k ∉ akeys fpm → alookup (fill_footprint_keys fpm sm) k = alookup sm k
  | [], sm, k, hnm => rfl
  | p :: rest, sm, k, hnm => by
    rw [akeys_cons, List.mem_cons, not_or] at hnm
    rw [fill_footprint_keys]
    simp only [List.foldl_cons]
    by_cases hc : (alookup sm p.1).isSome = true
    · rw [if_pos hc]
      exact fill_footprint_keys_not_mem rest sm k hnm.2
    · rw [if_neg hc]
      have hx : alookup (fill_footprint_keys rest (ainsert sm p.1 none)) k =
          alookup (ainsert sm p.1 none) k :=
        fill_footprint_keys_not_mem rest _ k hnm.2
      rw [alookup_ainsert_ne _ _ _ _ (fun he => hnm.1 he.symm)] at hx
      exact hx

/-- Every failure of the storage-map construction is a
`Storage/InternalError`. -/
theorem build_storage_map_error (fp : Footprint) (entries : List LedgerEntry)
    (ttls : List (Option TtlEntry)) (num : Nat) (rec : Bool) (e : HostError)
    (h : build_storage_map_from_xdr_ledger_entries fp entries ttls num rec =
      .error e) : e = ⟨.storage, .internalError⟩ := by
  rw [build_storage_map_from_xdr_ledger_entries] at h
  by_cases hlen : entries.length ≠ ttls.length
  · rw [if_pos hlen] at h
    injection h with he
    exact he.symm
  · rw [if_neg hlen] at h
    cases hloop : build_storage_map_loop fp num rec (entries.zip ttls) [] [] with
    | error e1 =>
      simp only [hloop] at h
      injection h with he
      exact he ▸ build_storage_map_loop_error _ _ _ _ _ _ _ hloop
    | ok out =>
      obtain ⟨sm0, tm0⟩ := out
      simp only [hloop] at h
      exact Except.noConfusion h

/-! ## Claim C7: TTL freshness in storage-map construction -/

/-- Claim C7 (confirmed): in enforcing mode, storage-map construction fails
with `Storage/InternalError` whenever some supplied TTL record is expired
(`live_until < current ledger`); in recording mode an expired entry of a
temporary key is skipped — it is never bound in the produced storage map,
and when its key is declared in the footprint (and carried by no other
input pair) the key is recorded as declared-but-absent — while an expired
entry of a persistent key is kept together with its live-until ledger. -/
theorem build_storage_map_ttl_freshness (fp : Footprint)
    (entries : List LedgerEntry) (ttls : List (Option TtlEntry)) (num : Nat) :
    ((∃ t ∈ ttls, ∃ te, t = some te ∧ te.live_until_ledger_seq < num) →
      build_storage_map_from_xdr_ledger_entries fp entries ttls num false =
        .error ⟨.storage, .internalError⟩) ∧
    (∀ sm tm, build_storage_map_from_xdr_ledger_entries fp entries ttls num true =
        .ok (sm, tm) →
      ∀ k le lu, alookup sm k = some (some (le, some lu)) →
        num ≤ lu ∨ is_persistent_key k = true) ∧
    (∀ le te k, (le, some te) ∈ entries.zip ttls →
      te.live_until_ledger_seq < num →
      ledger_entry_to_ledger_key le = .ok k →
      is_persistent_key k = false →
      k ∈ akeys fp.m →
      (∀ p ∈ entries.zip ttls, ∀ key',
        ledger_entry_to_ledger_key p.1 = .ok key' → key' = k →
        p = (le, some te)) →
      ∀ sm tm, build_storage_map_from_xdr_ledger_entries fp entries ttls num true =
        .ok (sm, tm) → alookup sm k = some none) ∧
    (∀ le te k, (le, some te) ∈ entries.zip ttls →
      te.live_until_ledger_seq < num →
      ledger_entry_to_ledger_key le = .ok k →
      is_persistent_key k = true →
      (∀ p ∈ entries.zip ttls, ∀ key',
        ledger_entry_to_ledger_key p.1 = .ok key' → key' = k →
        p = (le, some te)) →
      ∀ sm tm, build_storage_map_from_xdr_ledger_entries fp entries ttls num true =
        .ok (sm, tm) →
      alookup sm k = some (some (le, some te.live_until_ledger_seq))) := by
  refine ⟨?_, ?_, ?_, ?_⟩
  · rintro ⟨t, ht, te, hte, hlt⟩
    rw [build_storage_map_from_xdr_ledger_entries]
    by_cases hlen : entries.length ≠ ttls.length
    · rw [if_pos hlen]
    · rw [if_neg hlen]
      push_neg at hlen
      obtain ⟨le, hpair⟩ := exists_zip_left entries ttls t ht hlen
      cases hloop : build_storage_map_loop fp num false (entries.zip ttls) [] [] with
      | error e1 =>
        rw [build_storage_map_loop_error _ _ _ _ _ _ _ hloop]
      | ok out =>
        exfalso
        have hge := build_storage_map_loop_ok_no_expired _ _ _ _ _ _ hloop
          (le, t) hpair te hte
        omega
  · intro sm tm h
    rw [build_storage_map_from_xdr_ledger_entries] at h
    by_cases hlen : entries.length ≠ ttls.length
    · rw [if_pos hlen] at h
      exact Except.noConfusion h
    · rw [if_neg hlen] at h
      cases hloop : build_storage_map_loop fp num true (entries.zip ttls) [] [] with
      | error e1 =>
        simp only [hloop] at h
        exact Except.noConfusion h
      | ok out =>
        obtain ⟨sm0, tm0⟩ := out
        simp only [hloop] at h
        injection h with hpair
        rw [Prod.mk.injEq] at hpair
        obtain ⟨h1, h2⟩ := hpair
        subst h1
        intro k le lu hlk
        have hinv0 := build_storage_map_loop_value_invariant _ _ _ _ _ _ _ _ hloop
          (by intro k1 le1 lu1 hl1; simp [alookup] at hl1)
        by_cases hkk : ∃ v, alookup sm0 k = some v
        · obtain ⟨v, hv⟩ := hkk
          rw [fill_footprint_keys_preserves _ _ _ _ hv] at hlk
          injection hlk with hveq
          exact hinv0 k le lu (hveq ▸ hv)
        · push_neg at hkk
          have hnone : alookup sm0 k = none := by
            cases hx : alookup sm0 k with
            | none => rfl
            | some v => exact absurd hx (hkk v)
          cases hm : decide (k ∈ akeys fp.m) with
          | true =>
            have hmem := of_decide_eq_true hm
            rw [fill_footprint_keys_inserts_none _ _ _ hmem hnone] at hlk
            injection hlk with hveq
            exact Option.noConfusion hveq
          | false =>
            have hnm := of_decide_eq_false hm
            rw [fill_footprint_keys_not_mem _ _ _ hnm, hnone] at hlk
            exact Option.noConfusion hlk
  · intro le te k hpair hlt hkey hpers hmem hcanon sm tm h
    rw [build_storage_map_from_xdr_ledger_entries] at h
    by_cases hlen : entries.length ≠ ttls.length
    · rw [if_pos hlen] at h
      exact Except.noConfusion h
    · rw [if_neg hlen] at h
      cases hloop : build_storage_map_loop fp num true (entries.zip ttls) [] [] with
      | error e1 =>
        simp only [hloop] at h
        exact Except.noConfusion h
      | ok out =>
        obtain ⟨sm0, tm0⟩ := out
        simp only [hloop] at h
        injection h with hpair2
        rw [Prod.mk.injEq] at hpair2
        obtain ⟨h1, h2⟩ := hpair2
        subst h1
        have huntouched := build_storage_map_loop_untouched _ _ _ _ _ _ _ _ k hloop
          (by
            intro p hp key' hp1 hp2
            have hpc := hcanon p hp key' hp1 hp2
            exact ⟨te, by rw [hpc], hlt, hpers, rfl⟩)
        have hnone : alookup sm0 k = none := by
          rw [huntouched]
          rfl
        exact fill_footprint_keys_inserts_none _ _ _ hmem hnone
  · intro le te k hpair hlt hkey hpers hcanon sm tm h
    rw [build_storage_map_from_xdr_ledger_entries] at h
    by_cases hlen : entries.length ≠ ttls.length
    · rw [if_pos hlen] at h
      exact Except.noConfusion h
    · rw [if_neg hlen] at h
      cases hloop : build_storage_map_loop fp num true (entries.zip ttls) [] [] with
      | error e1 =>
        simp only [hloop] at h
        exact Except.noConfusion h
      | ok out =>
        obtain ⟨sm0, tm0⟩ := out
        simp only [hloop] at h
        injection h with hpair2
        rw [Prod.mk.injEq] at hpair2
        obtain ⟨h1, h2⟩ := hpair2
        subst h1
        have hbind := build_storage_map_loop_binding _ _ _ _ _ _ _ k le te hloop
          hcanon hkey hlt hpers (Or.inl hpair)
        exact fill_footprint_keys_preserves _ _ _ _ hbind

/-- Witness for claim C7 at the mixed two-entry fixture: the enforcing run
fails with the internal storage error, and the recording run skips the
expired temporary entry while keeping the expired persistent one. -/
theorem build_storage_map_ttl_freshness_witness :
    build_storage_map_from_xdr_ledger_entries mixed_footprint mixed_entries
      mixed_ttls 100 false = .error ⟨.storage, .internalError⟩ ∧
    alookup mixed_recording_storage_map (LedgerKey.contractData 1 1 .temporary) =
      some none ∧
    alookup mixed_recording_storage_map (LedgerKey.contractData 2 2 .persistent) =
      some (some (⟨.contractData 2 2 .persistent 0, 6⟩, some 60)) := by
  refine ⟨?_, ?_, ?_⟩
  · exact (build_storage_map_ttl_freshness mixed_footprint mixed_entries
      mixed_ttls 100).1 ⟨some ⟨11, 50⟩, by decide, ⟨11, 50⟩, rfl, by decide⟩
  · refine (build_storage_map_ttl_freshness mixed_footprint mixed_entries
      mixed_ttls 100).2.2.1 ⟨.contractData 1 1 .temporary 0, 5⟩ ⟨11, 50⟩
      (LedgerKey.contractData 1 1 .temporary) (by decide) (by decide) (by decide)
      (by decide) (by decide) ?_ mixed_recording_storage_map
      [(LedgerKey.contractData 2 2 .persistent, ⟨22, 60⟩)] rfl
    intro p hp key' h1 h2
    subst h2
    have hz : p = (⟨.contractData 1 1 .temporary 0, 5⟩,
        some (⟨11, 50⟩ : TtlEntry)) ∨
        p = (⟨.contractData 2 2 .persistent 0, 6⟩, some (⟨22, 60⟩ : TtlEntry)) := by
      simpa [mixed_entries, mixed_ttls] using hp
    rcases hz with h3 | h3
    · rw [h3]
    · rw [h3] at h1
      simp [ledger_entry_to_ledger_key] at h1
  · refine (build_storage_map_ttl_freshness mixed_footprint mixed_entries
      mixed_ttls 100).2.2.2 ⟨.contractData 2 2 .persistent 0, 6⟩ ⟨22, 60⟩
      (LedgerKey.contractData 2 2 .persistent) (by decide) (by decide) (by decide)
      (by decide) ?_ mixed_recording_storage_map
      [(LedgerKey.contractData 2 2 .persistent, ⟨22, 60⟩)] rfl
    intro p hp key' h1 h2
    subst h2
    have hz : p = (⟨.contractData 1 1 .temporary 0, 5⟩,
        some (⟨11, 50⟩ : TtlEntry)) ∨
        p = (⟨.contractData 2 2 .persistent 0, 6⟩, some (⟨22, 60⟩ : TtlEntry)) := by
      simpa [mixed_entries, mixed_ttls] using hp
    rcases hz with h3 | h3
    · rw [h3] at h1
      simp [ledger_entry_to_ledger_key] at h1
    · rw [h3]


/-! ## C4: error propagation policy -/

/-- Reduction of `>>=` on an error in the `Except` monad. -/
theorem except_bind_error {ε α β : Type} (e : ε) (f : α → Except ε β) :
    (Except.error e >>= f : Except ε β) = Except.error e := rfl

/-- Reduction of `>>=` on a success in the `Except` monad. -/
theorem except_bind_ok {ε α β : Type} (a : α) (f : α → Except ε β) :
    (Except.ok a >>= f : Except ε β) = f a := rfl

/-- The only error of the restored-key-set fold is `Storage/InternalError`. -/
theorem restored_key_fold_error (rw_keys : List LedgerKey) :
    ∀ (idx : List Nat) (init : List LedgerKey) (e : HostError),
      (idx.foldlM
        (fun acc i =>
          match rw_keys.get? i with
          | some k => Except.ok (if k ∈ acc then acc else acc ++ [k])
          | none => Except.error (⟨.storage, .internalError⟩ : HostError))
        init : Except HostError (List LedgerKey)) = .error e →
      e = ⟨.storage, .internalError⟩ := by
  intro idx
  induction idx with
  | nil =>
    intro init e h
    exact Except.noConfusion h
  | cons i rest ih =>
    intro init e h
    rw [List.foldlM_cons] at h
    cases hget : rw_keys.get? i with
    | none =>
      simp only [hget, except_bind_error] at h
      injection h with he
      exact he.symm
    | some k =>
      simp only [hget, except_bind_ok] at h
      exact ih _ e h

/-- `build_restored_key_set` fails only with `Storage/InternalError`. -/
theorem build_restored_key_set_error (resources : SorobanResources)
    (idx : List Nat) (e : HostError)
    (h : build_restored_key_set resources idx = .error e) :
    e = ⟨.storage, .internalError⟩ := by
  rw [build_restored_key_set] at h
  by_cases hemp : idx.isEmpty
  · rw [if_pos hemp] at h
    exact Except.noConfusion h
  · rw [if_neg hemp] at h
    cases hf : (idx.foldlM
        (fun acc i =>
          match resources.footprint.read_write.get? i with
          | some k => Except.ok (if k ∈ acc then acc else acc ++ [k])
          | none => Except.error (⟨.storage, .internalError⟩ : HostError))
        ([] : List LedgerKey) : Except HostError (List LedgerKey)) with
    | error e1 =>
      simp only [hf] at h
      injection h with he
      exact he ▸ restored_key_fold_error resources.footprint.read_write idx [] e1 hf
    | ok ks =>
      simp only [hf] at h
      exact Except.noConfusion h

/-- Footprint construction never fails (every key kind is supported). -/
theorem build_storage_footprint_no_error (lfp : LedgerFootprint) (e : HostError)
    (h : build_storage_footprint_from_xdr lfp = .error e) : False := by
  rw [build_storage_footprint_from_xdr] at h
  simp only [footprint_foldlM_eq] at h
  exact Except.noConfusion h

/-- `get_ledger_changes` fails only with `Storage/InternalError`. -/
theorem get_ledger_changes_error (storage : Storage) (snap : SnapshotSource)
    (tm : TtlEntryMap) (minL : Nat) (rk : Option (List LedgerKey)) (seq : Nat)
    (e : HostError)
    (h : get_ledger_changes storage snap tm minL rk seq = .error e) :
    e = ⟨.storage, .internalError⟩ := by
  obtain ⟨p, _, hp⟩ := collect_results_error _ _ e h
  exact process_ledger_entry_change_error storage.footprint snap tm minL rk seq
    p.1 p.2 e hp

/-- C4: when the host session itself fails only for budget exhaustion or
internal inconsistencies, the whole pipeline does too — every other error is
either a `*/InternalError` of its own stages or is embedded in the `Ok`
result; and an embedded invoke error always comes with an empty change set
and empty encoded events. -/
theorem invoke_host_function_error_policy
    (encodeEvent : ContractEvent → List Nat) (hostRun : HostRun)
    (resources : SorobanResources) (restored_rw_entry_indices : List Nat)
    (ledger_info : LedgerInfo) (ledger_entries : List LedgerEntry)
    (ttl_entries : List (Option TtlEntry)) (base_prng_seed : List Nat)
    (hhost : ∀ s e, hostRun s = .error e →
      e.type_ = ScErrorType.budget ∨ e.code = ScErrorCode.internalError) :
    (∀ e, invoke_host_function encodeEvent hostRun resources
        restored_rw_entry_indices ledger_info ledger_entries ttl_entries
        base_prng_seed = .error e →
      e.type_ = ScErrorType.budget ∨ e.code = ScErrorCode.internalError) ∧
    (∀ res e, invoke_host_function encodeEvent hostRun resources
        restored_rw_entry_indices ledger_info ledger_entries ttl_entries
        base_prng_seed = .ok res →
      res.encoded_invoke_result = .error e →
      res.ledger_changes = [] ∧ res.encoded_contract_events = []) := by
  constructor
  · intro e h
    rw [invoke_host_function] at h
    cases hrk : build_restored_key_set resources restored_rw_entry_indices with
    | error e1 =>
      simp only [hrk] at h
      injection h with he
      exact Or.inr (by rw [← he, build_restored_key_set_error resources
        restored_rw_entry_indices e1 hrk])
    | ok restored_keys =>
      simp only [hrk] at h
      cases hfp : build_storage_footprint_from_xdr resources.footprint with
      | error e1 => exact (build_storage_footprint_no_error _ _ hfp).elim
      | ok footprint =>
        simp only [hfp] at h
        cases hml : ledger_info.min_live_until_ledger_checked
            ContractDataDurability.persistent with
        | none =>
          simp only [hml] at h
          injection h with he
          exact Or.inr (by rw [← he])
        | some minL =>
          simp only [hml] at h
          cases hsm : build_storage_map_from_xdr_ledger_entries footprint
              ledger_entries ttl_entries ledger_info.sequence_number false with
          | error e1 =>
            simp only [hsm] at h
            injection h with he
            exact Or.inr (by rw [← he, build_storage_map_error footprint
              ledger_entries ttl_entries ledger_info.sequence_number false
              e1 hsm])
          | ok pr =>
            obtain ⟨storage_map, init_ttl_map⟩ := pr
            simp only [hsm] at h
            by_cases hseed : base_prng_seed.length = 32
            · rw [if_pos hseed] at h
              cases hrun : hostRun ⟨footprint, storage_map⟩ with
              | error e1 =>
                simp only [hrun] at h
                injection h with he
                exact he ▸ hhost ⟨footprint, storage_map⟩ e1 hrun
              | ok t =>
                obtain ⟨result, final_storage, events⟩ := t
                simp only [hrun] at h
                cases result with
                | error e0 => exact Except.noConfusion h
                | ok v0 =>
                  cases hch : get_ledger_changes final_storage
                      (fun k => (alookup storage_map k).bind id) init_ttl_map
                      minL restored_keys ledger_info.sequence_number with
                  | error e1 =>
                    simp only [hch] at h
                    injection h with he
                    exact Or.inr (by rw [← he, get_ledger_changes_error
                      final_storage _ init_ttl_map minL restored_keys
                      ledger_info.sequence_number e1 hch])
                  | ok changes =>
                    simp only [hch] at h
                    exact Except.noConfusion h
            · rw [if_neg hseed] at h
              injection h with he
              exact Or.inr (by rw [← he])
  · intro res e h hres
    rw [invoke_host_function] at h
    cases hrk : build_restored_key_set resources restored_rw_entry_indices with
    | error e1 =>
      simp only [hrk] at h
      exact Except.noConfusion h
    | ok restored_keys =>
      simp only [hrk] at h
      cases hfp : build_storage_footprint_from_xdr resources.footprint with
      | error e1 => exact (build_storage_footprint_no_error _ _ hfp).elim
      | ok footprint =>
        simp only [hfp] at h
        cases hml : ledger_info.min_live_until_ledger_checked
            ContractDataDurability.persistent with
        | none =>
          simp only [hml] at h
          exact Except.noConfusion h
        | some minL =>
          simp only [hml] at h
          cases hsm : build_storage_map_from_xdr_ledger_entries footprint
              ledger_entries ttl_entries ledger_info.sequence_number false with
          | error e1 =>
            simp only [hsm] at h
            exact Except.noConfusion h
          | ok pr =>
            obtain ⟨storage_map, init_ttl_map⟩ := pr
            simp only [hsm] at h
            by_cases hseed : base_prng_seed.length = 32
            · rw [if_pos hseed] at h
              cases hrun : hostRun ⟨footprint, storage_map⟩ with
              | error e1 =>
                simp only [hrun] at h
                exact Except.noConfusion h
              | ok t =>
                obtain ⟨result, final_storage, events⟩ := t
                simp only [hrun] at h
                cases result with
                | error e0 =>
                  injection h with h2
                  subst h2
                  exact ⟨rfl, rfl⟩
                | ok v0 =>
                  cases hch : get_ledger_changes final_storage
                      (fun k => (alookup storage_map k).bind id) init_ttl_map
                      minL restored_keys ledger_info.sequence_number with
                  | error e1 =>
                    simp only [hch] at h
                    exact Except.noConfusion h
                  | ok changes =>
                    simp only [hch] at h
                    injection h with h2
                    subst h2
                    simp at hres
            · rw [if_neg hseed] at h
              exact Except.noConfusion h

/-- Witness for C4: an authorization failure inside the host run is embedded
in the `Ok` result, with empty changes and events. -/
theorem invoke_host_function_error_policy_witness :
    (⟨Except.error ⟨ScErrorType.auth, ScErrorCode.invalidAction⟩, [], []⟩ :
        InvokeHostFunctionResult).ledger_changes = [] ∧
    (⟨Except.error ⟨ScErrorType.auth, ScErrorCode.invalidAction⟩, [], []⟩ :
        InvokeHostFunctionResult).encoded_contract_events = [] :=
  (invoke_host_function_error_policy (fun _ => [])
      (fun s => .ok (.error ⟨.auth, .invalidAction⟩, s,
        [⟨false, ⟨.contract, 5⟩⟩]))
      ⟨⟨[LedgerKey.account 1], [LedgerKey.account 2]⟩, 0, 0, 0⟩ []
      ⟨100, 16, 100⟩ [] [] (List.replicate 32 0)
      (by
        intro s e h
        exact Except.noConfusion h)).2
    ⟨.error ⟨.auth, .invalidAction⟩, [], []⟩ ⟨.auth, .invalidAction⟩
    (by rfl) rfl

/-! ## C8: restore-op simulation -/

/-- Characterization of the restore loop on success: the accumulator ends up
extended by exactly the expired snapshot entries among the keys, in order. -/
theorem simulate_restore_loop_ok_eq (snapshot_source : SnapshotSource)
    (sequence_number restored_live_until_ledger : Nat) :
    ∀ (keys : List LedgerKey) (b : Nat) (r : List LedgerEntryRentChange)
      (ks : List LedgerKey)
      (out : Nat × List LedgerEntryRentChange × List LedgerKey),
      simulate_restore_loop snapshot_source sequence_number
        restored_live_until_ledger keys (b, r, ks) = .ok out →
      out = ((keys.filter
               (restore_candidate snapshot_source sequence_number)).foldl
               (fun acc k => u32sat (acc + (snapshot_entry snapshot_source k).xdrSize)) b,
             r ++ (keys.filter
               (restore_candidate snapshot_source sequence_number)).map
               (restore_rent_change snapshot_source restored_live_until_ledger),
             ks ++ keys.filter
               (restore_candidate snapshot_source sequence_number)) := by
  intro keys
  induction keys with
  | nil =>
    intro b r ks out h
    simp only [simulate_restore_loop] at h
    injection h with h
    simp [h.symm]
  | cons key rest ih =>
    intro b r ks out h
    simp only [simulate_restore_loop] at h
    by_cases hd : get_key_durability key = some ContractDataDurability.persistent
    · rw [if_pos hd] at h
      cases hs : snapshot_source key with
      | none =>
        simp only [hs] at h
        exact Except.noConfusion h
      | some p =>
        obtain ⟨entry, live_until⟩ := p
        simp only [hs] at h
        split at h
        · exact Except.noConfusion h
        · rename_i current_live_until_ledger
          by_cases hlive : sequence_number ≤ current_live_until_ledger
          · rw [if_pos hlive] at h
            have hc : restore_candidate snapshot_source sequence_number key = false := by
              simp only [restore_candidate, hs, decide_eq_false_iff_not]
              omega
            have hrec := ih b r ks out h
            simp only [List.filter_cons, hc, Bool.false_eq_true, if_false]
            exact hrec
          · rw [if_neg hlive] at h
            by_cases hsz : entry.xdrSize < U32LIM
            · rw [if_pos hsz] at h
              have hc : restore_candidate snapshot_source sequence_number key = true := by
                simp only [restore_candidate, hs, decide_eq_true_eq]
                omega
              have hrec := ih _ _ _ out h
              rw [hrec]
              simp only [List.filter_cons, hc, if_true, List.foldl_cons,
                List.map_cons, List.append_assoc, List.singleton_append,
                List.cons_append, List.nil_append, Prod.mk.injEq]
              refine ⟨?_, ?_, trivial⟩
              · simp [snapshot_entry, hs]
              · simp [restore_rent_change, snapshot_entry, hs]
            · rw [if_neg hsz] at h
              exact Except.noConfusion h
    · rw [if_neg hd] at h
      exact Except.noConfusion h

/-- A key list containing a non-persistent key, or a key absent from the
snapshot, makes the restore loop fail. -/
theorem simulate_restore_loop_err (snapshot_source : SnapshotSource)
    (sequence_number restored_live_until_ledger : Nat) :
    ∀ (keys : List LedgerKey) (b : Nat) (r : List LedgerEntryRentChange)
      (ks : List LedgerKey),
      (∃ key ∈ keys,
        get_key_durability key ≠ some ContractDataDurability.persistent ∨
          snapshot_source key = none) →
      ∀ out, simulate_restore_loop snapshot_source sequence_number
        restored_live_until_ledger keys (b, r, ks) ≠ .ok out := by
  intro keys
  induction keys with
  | nil =>
    intro b r ks hbad out
    obtain ⟨key, hk, _⟩ := hbad
    exact absurd hk (List.not_mem_nil key)
  | cons key rest ih =>
    intro b r ks hbad out h
    simp only [simulate_restore_loop] at h
    obtain ⟨key0, hk0, hbad0⟩ := hbad
    by_cases hd : get_key_durability key = some ContractDataDurability.persistent
    · rw [if_pos hd] at h
      cases hs : snapshot_source key with
      | none =>
        simp only [hs] at h
        exact Except.noConfusion h
      | some p =>
        obtain ⟨entry, live_until⟩ := p
        simp only [hs] at h
        have hk0rest : key0 ∈ rest := by
          rcases List.mem_cons.mp hk0 with h1 | h1
          · subst h1
            rcases hbad0 with h2 | h2
            · exact absurd hd h2
            · rw [h2] at hs
              exact Option.noConfusion hs
          · exact h1
        split at h
        · exact Except.noConfusion h
        · rename_i current_live_until_ledger
          by_cases hlive : sequence_number ≤ current_live_until_ledger
          · rw [if_pos hlive] at h
            exact ih b r ks ⟨key0, hk0rest, hbad0⟩ out h
          · rw [if_neg hlive] at h
            by_cases hsz : entry.xdrSize < U32LIM
            · rw [if_pos hsz] at h
              exact ih _ _ _ ⟨key0, hk0rest, hbad0⟩ out h
            · rw [if_neg hsz] at h
              exact Except.noConfusion h
    · rw [if_neg hd] at h
      exact Except.noConfusion h


/-- C8 (counterexample): the claim that on success `disk_read_bytes` equals
the (exact) sum of the encoded XDR sizes of the restored entries is false:
the source accumulates the sizes with `saturating_add`, so 129 copies of an
expired 32-MiB entry saturate at `u32::MAX` instead of summing to
`129 * 2^25`. -/
theorem simulate_restore_sum_claim_false :
    ¬ (∀ (keys_to_restore : List LedgerKey) (snapshot_source : SnapshotSource)
        (ledger_info : LedgerInfo) (res : SorobanResources)
        (rent_changes : List LedgerEntryRentChange),
        simulate_restore_op_resources keys_to_restore snapshot_source
          ledger_info = .ok (res, rent_changes) →
        res.disk_read_bytes =
          ((keys_to_restore.filter
              (restore_candidate snapshot_source ledger_info.sequence_number)).map
            (fun k => (snapshot_entry snapshot_source k).xdrSize)).sum) := by
  intro hclaim
  have hrun : simulate_restore_op_resources restore_bulk_keys
      restore_bulk_snapshot restore_bulk_info =
      .ok (⟨⟨[], [restore_bulk_key, restore_bulk_key, restore_bulk_key]⟩,
             0, 4294967295, 4294967295⟩,
           [⟨true, false, 0, 2147483648, 0, 100⟩,
            ⟨true, false, 0, 2147483648, 0, 100⟩,
            ⟨true, false, 0, 2147483648, 0, 100⟩]) := by rfl
  have h3 : ((restore_bulk_keys.filter
      (restore_candidate restore_bulk_snapshot
        restore_bulk_info.sequence_number)).map
      (fun k => (snapshot_entry restore_bulk_snapshot k).xdrSize)).sum =
      3 * 2 ^ 31 := by decide
  have h2 := hclaim restore_bulk_keys restore_bulk_snapshot restore_bulk_info
    _ _ hrun
  rw [h3] at h2
  exact absurd h2 (by decide)

/-- C8 (amended): every key must be persistent and present in the snapshot
(else the simulation fails); live keys are skipped and only expired keys
are restored; each restored key yields a rent change with `old_size = 0`,
`old_live_until = 0` and `new_live_until` equal to the minimum persistent
live-until ledger; `disk_read_bytes = write_bytes` is the SATURATING sum of
the restored entries' encoded XDR sizes; the footprint is read-write-only
and sorted. -/
theorem simulate_restore_op_resources_characterization
    (keys_to_restore : List LedgerKey) (snapshot_source : SnapshotSource)
    (ledger_info : LedgerInfo) :
    ((∃ key ∈ keys_to_restore,
        get_key_durability key ≠ some ContractDataDurability.persistent ∨
          snapshot_source key = none) →
      ∀ out, simulate_restore_op_resources keys_to_restore snapshot_source
        ledger_info ≠ .ok out) ∧
    (∀ res rent_changes,
      simulate_restore_op_resources keys_to_restore snapshot_source
        ledger_info = .ok (res, rent_changes) →
      ∃ restored_live_until_ledger,
        ledger_info.min_live_until_ledger_checked
            ContractDataDurability.persistent = some restored_live_until_ledger ∧
        res.footprint.read_only = [] ∧
        res.footprint.read_write =
          List.insertionSort keyLE
            (keys_to_restore.filter
              (restore_candidate snapshot_source ledger_info.sequence_number)) ∧
        List.Sorted keyLE res.footprint.read_write ∧
        res.instructions = 0 ∧
        res.disk_read_bytes =
          saturating_size_sum snapshot_source
            (keys_to_restore.filter
              (restore_candidate snapshot_source ledger_info.sequence_number)) ∧
        res.write_bytes = res.disk_read_bytes ∧
        rent_changes =
          (keys_to_restore.filter
              (restore_candidate snapshot_source ledger_info.sequence_number)).map
            (restore_rent_change snapshot_source restored_live_until_ledger) ∧
        ∀ c ∈ rent_changes,
          c.is_persistent = true ∧ c.old_size_bytes = 0 ∧
          c.old_live_until_ledger = 0 ∧
          c.new_live_until_ledger = restored_live_until_ledger) := by
  constructor
  · intro hbad out h
    simp only [simulate_restore_op_resources] at h
    cases hm : ledger_info.min_live_until_ledger_checked
        ContractDataDurability.persistent with
    | none =>
      simp only [hm] at h
      exact Except.noConfusion h
    | some restored_live_until_ledger =>
      simp only [hm] at h
      cases hloop : simulate_restore_loop snapshot_source
          ledger_info.sequence_number restored_live_until_ledger
          keys_to_restore (0, [], []) with
      | error e =>
        simp only [hloop] at h
        exact Except.noConfusion h
      | ok out0 =>
        exact simulate_restore_loop_err snapshot_source
          ledger_info.sequence_number restored_live_until_ledger
          keys_to_restore 0 [] [] hbad out0 hloop
  · intro res rent_changes h
    simp only [simulate_restore_op_resources] at h
    cases hm : ledger_info.min_live_until_ledger_checked
        ContractDataDurability.persistent with
    | none =>
      simp only [hm] at h
      exact Except.noConfusion h
    | some restored_live_until_ledger =>
      simp only [hm] at h
      cases hloop : simulate_restore_loop snapshot_source
          ledger_info.sequence_number restored_live_until_ledger
          keys_to_restore (0, [], []) with
      | error e =>
        simp only [hloop] at h
        exact Except.noConfusion h
      | ok out0 =>
        obtain ⟨b, r, ks⟩ := out0
        simp only [hloop] at h
        injection h with h2
        rw [Prod.mk.injEq] at h2
        obtain ⟨hres, hrents⟩ := h2
        have hchar := simulate_restore_loop_ok_eq snapshot_source
          ledger_info.sequence_number restored_live_until_ledger
          keys_to_restore 0 [] [] (b, r, ks) hloop
        rw [Prod.mk.injEq, Prod.mk.injEq] at hchar
        obtain ⟨hb, hr, hks⟩ := hchar
        rw [List.nil_append] at hr hks
        subst hres hrents hb hr hks
        refine ⟨restored_live_until_ledger, rfl, rfl, rfl, ?_, rfl, rfl, rfl,
          rfl, ?_⟩
        · exact List.sorted_insertionSort keyLE _
        · intro c hc
          obtain ⟨k, _, hk⟩ := List.mem_map.mp hc
          subst hk
          simp [restore_rent_change]

/-- Witness for the amended C8 theorem: a single non-persistent account key
makes the restore simulation fail. -/
theorem simulate_restore_op_resources_characterization_witness :
    simulate_restore_op_resources [LedgerKey.account 9]
      restore_bulk_snapshot restore_bulk_info ≠
      .ok (⟨⟨[], []⟩, 0, 0, 0⟩, []) :=
  (simulate_restore_op_resources_characterization [LedgerKey.account 9]
      restore_bulk_snapshot restore_bulk_info).1
    ⟨LedgerKey.account 9, by decide, Or.inl (by decide)⟩
    (⟨⟨[], []⟩, 0, 0, 0⟩, [])


/-! ## C3: footprint completeness of the change set -/

/-- A key is in the constructed footprint map exactly when it is declared in
one of the two footprint lists. -/
theorem mem_akeys_build_storage_footprint (lfp : LedgerFootprint)
    (fp : Footprint) (h : build_storage_footprint_from_xdr lfp = .ok fp)
    (k : LedgerKey) :
    k ∈ akeys fp.m ↔ k ∈ lfp.read_only ∨ k ∈ lfp.read_write := by
  rw [build_storage_footprint_from_xdr] at h
  simp only [footprint_foldlM_eq] at h
  injection h with hfp
  subst hfp
  rw [mem_akeys_foldl_ainsert, mem_akeys_foldl_ainsert]
  simp only [akeys_nil, List.not_mem_nil, false_or]
  tauto

/-- On success, the storage-map loop only adds footprint keys, and keeps the
key list duplicate-free. -/
theorem build_storage_map_loop_keys (footprint : Footprint) (num : Nat)
    (rec : Bool) :
    ∀ (l : List (LedgerEntry × Option TtlEntry)) (sm : StorageMap)
      (tm : TtlEntryMap) (sm1 : StorageMap) (tm1 : TtlEntryMap),
      build_storage_map_loop footprint num rec l sm tm = .ok (sm1, tm1) →
      (∀ k, k ∈ akeys sm1 → k ∈ akeys sm ∨ k ∈ akeys footprint.m) ∧
      ((akeys sm).Nodup → (akeys sm1).Nodup) := by
  intro l
  induction l with
  | nil =>
    intro sm tm sm1 tm1 h
    rw [build_storage_map_loop] at h
    injection h with hpair
    rw [Prod.mk.injEq] at hpair
    obtain ⟨h1, h2⟩ := hpair
    subst h1
    exact ⟨fun k hk => Or.inl hk, id⟩
  | cons q rest ih =>
    intro sm tm sm1 tm1 h
    obtain ⟨le0, ttlOpt⟩ := q
    rw [build_storage_map_loop] at h
    split at h
    · exact Except.noConfusion h
    · rename_i key hk
      split at h
      · rename_i te
        split at h
        · exact Except.noConfusion h
        · split at h
          · exact ih _ _ _ _ h
          · split at h
            · rename_i hfp
              have hrec := ih _ _ _ _ h
              constructor
              · intro k hkmem
                rcases hrec.1 k hkmem with h1 | h1
                · rcases (mem_akeys_ainsert sm key _ k).mp h1 with h2 | h2
                  · subst h2
                    exact Or.inr ((alookup_isSome_iff footprint.m k).mp hfp)
                  · exact Or.inl h2
                · exact Or.inr h1
              · intro hnd
                exact hrec.2 (nodup_akeys_ainsert sm key _ hnd)
            · exact Except.noConfusion h
      · split at h
        · exact Except.noConfusion h
        · exact Except.noConfusion h
        · split at h
          · rename_i hfp
            have hrec := ih _ _ _ _ h
            constructor
            · intro k hkmem
              rcases hrec.1 k hkmem with h1 | h1
              · rcases (mem_akeys_ainsert sm key _ k).mp h1 with h2 | h2
                · subst h2
                  exact Or.inr ((alookup_isSome_iff footprint.m k).mp hfp)
                · exact Or.inl h2
              · exact Or.inr h1
            · intro hnd
              exact hrec.2 (nodup_akeys_ainsert sm key _ hnd)
          · exact Except.noConfusion h

/-- The trailing fill pass binds precisely the union of the existing keys and
the footprint keys. -/
theorem mem_akeys_fill_footprint_keys :
    ∀ (fpm : List (LedgerKey × AccessType)) (sm : StorageMap) (k : LedgerKey),
      k ∈ akeys (fill_footprint_keys fpm sm) ↔ k ∈ akeys sm ∨ k ∈ akeys fpm
  | [], sm, k => by simp [fill_footprint_keys, akeys]
  | p :: rest, sm, k => by
    rw [fill_footprint_keys]
    simp only [List.foldl_cons]
    by_cases hc : (alookup sm p.1).isSome = true
    · rw [if_pos hc]
      have hsm : p.1 ∈ akeys sm := (alookup_isSome_iff sm p.1).mp hc
      show k ∈ akeys (fill_footprint_keys rest sm) ↔
        k ∈ akeys sm ∨ k ∈ akeys (p :: rest)
      rw [mem_akeys_fill_footprint_keys rest sm k]
      simp only [akeys_cons, List.mem_cons]
      constructor
      · rintro (h1 | h1)
        · exact Or.inl h1
        · exact Or.inr (Or.inr h1)
      · rintro (h1 | rfl | h1)
        · exact Or.inl h1
        · exact Or.inl hsm
        · exact Or.inr h1
    · rw [if_neg hc]
      show k ∈ akeys (fill_footprint_keys rest (ainsert sm p.1 none)) ↔
        k ∈ akeys sm ∨ k ∈ akeys (p :: rest)
      rw [mem_akeys_fill_footprint_keys rest (ainsert sm p.1 none) k,
        mem_akeys_ainsert]
      simp only [akeys_cons, List.mem_cons]
      tauto

/-- The fill pass keeps the key list duplicate-free. -/
theorem nodup_akeys_fill_footprint_keys :
    ∀ (fpm : List (LedgerKey × AccessType)) (sm : StorageMap),
      (akeys sm).Nodup → (akeys (fill_footprint_keys fpm sm)).Nodup
  | [], _, h => h
  | p :: rest, sm, h => by
    rw [fill_footprint_keys]
    simp only [List.foldl_cons]
    by_cases hc : (alookup sm p.1).isSome = true
    · rw [if_pos hc]
      exact nodup_akeys_fill_footprint_keys rest sm h
    · rw [if_neg hc]
      exact nodup_akeys_fill_footprint_keys rest _ (nodup_akeys_ainsert sm p.1 none h)

/-- On success the built storage map binds exactly the footprint keys, each
once. -/
theorem build_storage_map_ok_keys (fp : Footprint) (entries : List LedgerEntry)
    (ttls : List (Option TtlEntry)) (num : Nat) (rec : Bool)
    (sm0 : StorageMap) (tm0 : TtlEntryMap)
    (h : build_storage_map_from_xdr_ledger_entries fp entries ttls num rec =
      .ok (sm0, tm0)) :
    (akeys sm0).Nodup ∧ ∀ k, k ∈ akeys sm0 ↔ k ∈ akeys fp.m := by
  rw [build_storage_map_from_xdr_ledger_entries] at h
  by_cases hlen : entries.length ≠ ttls.length
  · rw [if_pos hlen] at h
    exact Except.noConfusion h
  · rw [if_neg hlen] at h
    cases hloop : build_storage_map_loop fp num rec (entries.zip ttls) [] [] with
    | error e1 =>
      simp only [hloop] at h
      exact Except.noConfusion h
    | ok out =>
      obtain ⟨sm1, tm1⟩ := out
      simp only [hloop] at h
      injection h with h2
      rw [Prod.mk.injEq] at h2
      obtain ⟨hsm, htm⟩ := h2
      subst hsm
      have hkeys := build_storage_map_loop_keys fp num rec (entries.zip ttls)
        [] [] sm1 tm1 hloop
      constructor
      · exact nodup_akeys_fill_footprint_keys fp.m sm1
          (hkeys.2 (by simp [akeys]))
      · intro k
        rw [mem_akeys_fill_footprint_keys]
        constructor
        · rintro (h1 | h1)
          · rcases hkeys.1 k h1 with h2 | h2
            · simp [akeys] at h2
            · exact h2
          · exact h1
        · exact Or.inr

/-- The encoded keys of the change set are the keys of the final storage map,
in iteration order. -/
theorem get_ledger_changes_keys (storage : Storage) (snap : SnapshotSource)
    (tm : TtlEntryMap) (minL : Nat) (rk : Option (List LedgerKey)) (seq : Nat)
    (changes : List LedgerEntryChange)
    (h : get_ledger_changes storage snap tm minL rk seq = .ok changes) :
    changes.map (fun c => c.encoded_key) = akeys storage.map :=
  collect_results_ok_map _ storage.map changes (fun c => c.encoded_key)
    (fun p => p.1) h
    (fun p c hc =>
      process_ledger_entry_change_encoded_key storage.footprint snap tm minL rk
        seq p.1 p.2 c hc)

/-- C3: for every enforcing-mode invocation through `invoke_host_function`
whose embedded invoke result is `Ok` (for a host run that preserves the key
set of the storage map, as the footprint-checked host storage does), the
returned change set has exactly one change record per declared footprint
key: its encoded keys are duplicate-free and a key occurs among them exactly
when it is declared read-only or read-write. -/
theorem invoke_host_function_footprint_completeness
    (encodeEvent : ContractEvent → List Nat) (hostRun : HostRun)
    (resources : SorobanResources) (restored_rw_entry_indices : List Nat)
    (ledger_info : LedgerInfo) (ledger_entries : List LedgerEntry)
    (ttl_entries : List (Option TtlEntry)) (base_prng_seed : List Nat)
    (hpres : ∀ s r st ev, hostRun s = .ok (r, st, ev) →
      akeys st.map = akeys s.map)
    (res : InvokeHostFunctionResult) (v : Nat)
    (hok : invoke_host_function encodeEvent hostRun resources
      restored_rw_entry_indices ledger_info ledger_entries ttl_entries
      base_prng_seed = .ok res)
    (hres : res.encoded_invoke_result = .ok v) :
    (res.ledger_changes.map (fun c => c.encoded_key)).Nodup ∧
    ∀ k, k ∈ res.ledger_changes.map (fun c => c.encoded_key) ↔
      k ∈ resources.footprint.read_only ∨
        k ∈ resources.footprint.read_write := by
  rw [invoke_host_function] at hok
  cases hrk : build_restored_key_set resources restored_rw_entry_indices with
  | error e =>
    simp only [hrk] at hok
    exact Except.noConfusion hok
  | ok restored_keys =>
    simp only [hrk] at hok
    cases hfp : build_storage_footprint_from_xdr resources.footprint with
    | error e =>
      simp only [hfp] at hok
      exact Except.noConfusion hok
    | ok footprint =>
      simp only [hfp] at hok
      cases hml : ledger_info.min_live_until_ledger_checked
          ContractDataDurability.persistent with
      | none =>
        simp only [hml] at hok
        exact Except.noConfusion hok
      | some minL =>
        simp only [hml] at hok
        cases hsm : build_storage_map_from_xdr_ledger_entries footprint
            ledger_entries ttl_entries ledger_info.sequence_number false with
        | error e =>
          simp only [hsm] at hok
          exact Except.noConfusion hok
        | ok pr =>
          obtain ⟨storage_map, init_ttl_map⟩ := pr
          simp only [hsm] at hok
          by_cases hseed : base_prng_seed.length = 32
          · rw [if_pos hseed] at hok
            cases hrun : hostRun ⟨footprint, storage_map⟩ with
            | error e =>
              simp only [hrun] at hok
              exact Except.noConfusion hok
            | ok t =>
              obtain ⟨result, final_storage, events⟩ := t
              simp only [hrun] at hok
              cases result with
              | error e =>
                injection hok with h2
                subst h2
                simp at hres
              | ok v0 =>
                cases hch : get_ledger_changes final_storage
                    (fun k => (alookup storage_map k).bind id) init_ttl_map
                    minL restored_keys ledger_info.sequence_number with
                | error e =>
                  simp only [hch] at hok
                  exact Except.noConfusion hok
                | ok changes =>
                  simp only [hch] at hok
                  injection hok with h2
                  subst h2
                  have hkeys : changes.map (fun c => c.encoded_key) =
                      akeys final_storage.map :=
                    get_ledger_changes_keys final_storage _ init_ttl_map minL
                      restored_keys ledger_info.sequence_number changes hch
                  have hpres2 := hpres ⟨footprint, storage_map⟩ (.ok v0)
                    final_storage events hrun
                  have hsmk := build_storage_map_ok_keys footprint
                    ledger_entries ttl_entries ledger_info.sequence_number
                    false storage_map init_ttl_map hsm
                  have hfpk := mem_akeys_build_storage_footprint
                    resources.footprint footprint hfp
                  constructor
                  · show (changes.map (fun c => c.encoded_key)).Nodup
                    rw [hkeys, hpres2]
                    exact hsmk.1
                  · intro k
                    show k ∈ changes.map (fun c => c.encoded_key) ↔ _
                    rw [hkeys, hpres2, hsmk.2 k, hfpk k]
          · rw [if_neg hseed] at hok
            exact Except.noConfusion hok

/-- Witness for C3 at a two-key footprint with empty initial entries and an
identity host run. -/
theorem invoke_host_function_footprint_completeness_witness :
    (([(⟨false, LedgerKey.account 2, 0, none, 0, none⟩ : LedgerEntryChange),
       ⟨true, LedgerKey.account 1, 0, none, 0, none⟩].map
        (fun c => c.encoded_key)).Nodup ∧
    ∀ k, k ∈ [(⟨false, LedgerKey.account 2, 0, none, 0, none⟩ :
          LedgerEntryChange),
        ⟨true, LedgerKey.account 1, 0, none, 0, none⟩].map
          (fun c => c.encoded_key) ↔
      k ∈ [LedgerKey.account 1] ∨ k ∈ [LedgerKey.account 2]) :=
  invoke_host_function_footprint_completeness (fun _ => [])
    (fun s => .ok (.ok 7, s, []))
    ⟨⟨[LedgerKey.account 1], [LedgerKey.account 2]⟩, 0, 0, 0⟩ []
    ⟨100, 16, 100⟩ [] [] (List.replicate 32 0)
    (by
      intro s r st ev h
      injection h with h1
      rw [Prod.mk.injEq, Prod.mk.injEq] at h1
      rw [← h1.2.1])
    ⟨.ok 7, [⟨false, LedgerKey.account 2, 0, none, 0, none⟩,
             ⟨true, LedgerKey.account 1, 0, none, 0, none⟩], []⟩ 7
    (by rfl) rfl

end SorobanE2E
